import Mathlib

/-!
Verification of the `@swimlane/rql` resource-query-language engine.

The TypeScript sources (`src/parser.ts`, `src/converters.ts`, `src/query.ts`,
`src/errors.ts`) are shallowly embedded below: pure functions become Lean
functions over `String` / `List Char`, thrown exceptions become `Except`
results, and JavaScript runtime primitives (`Number`, `decodeURIComponent`,
`encodeURIComponent`, `JSON.parse`, `Date`) are modelled explicitly where the
code uses them.  Recursion that is not structural in the source (the mutually
recursive query walker) is expressed with an explicit fuel parameter; the
public wrappers pick a fuel that is always sufficient for the inputs under
consideration.
-/

set_option maxRecDepth 8000

deriving instance DecidableEq for Except

namespace RQL

/-- Single-quote character (written by code point to avoid escape clutter). -/
def squote : Char := Char.ofNat 39

/-- Double-quote character. -/
def dquote : Char := Char.ofNat 34

/-- Backslash, the default escape delimiter of the parser. -/
def bslash : Char := Char.ofNat 92

/-- JavaScript regex `\w`: ASCII letters, digits and underscore. -/
def isWordChar (c : Char) : Bool := c.isAlpha || c.isDigit || c == '_'

/-- JavaScript `StrWhiteSpace` characters (the set trimmed by `Number(...)`
and `String.prototype.trim`); the common members are modelled. -/
def isJsSpace (c : Char) : Bool :=
  c == ' ' || c == '\t' || c == '\n' || c == '\r' ||
  c == Char.ofNat 11 || c == Char.ofNat 12 || c == Char.ofNat 0xa0 ||
  c == Char.ofNat 0xfeff || c == Char.ofNat 0x2028 || c == Char.ofNat 0x2029

/-- Strip JS whitespace from both ends of a character list. -/
def jsTrimL (l : List Char) : List Char :=
  ((l.dropWhile isJsSpace).reverse.dropWhile isJsSpace).reverse

/-- A JavaScript number that is not NaN: either a finite decimal value
`m * 10 ^ e` (every number this code constructs is a decimal literal, so
this representation is exact) or a signed infinity.  NaN outcomes are
represented as `none` by `jsToNumber`.  Values are kept normalized
(`m` not divisible by ten unless zero) so that structural equality is value
equality. -/
inductive JSNum where
  | fin (m : Int) (e : Int)
  | posInf
  | negInf
deriving DecidableEq, Repr

/-- Strip factors of ten from the mantissa into the exponent (the fuel
bounds the loop; it exits as soon as the mantissa is not divisible). -/
def stripTens : Nat → Int → Int → Int × Int
  | 0, m, e => (m, e)
  | f + 1, m, e => if m % 10 = 0 && m ≠ 0 then stripTens f (m / 10) (e + 1) else (m, e)

/-- Normalizing constructor for finite JS numbers. -/
def finDec (m e : Int) : JSNum :=
  if m = 0 then .fin 0 0
  else
    let p := stripTens (m.natAbs + 1) m e
    .fin p.1 p.2

/-- Magnitude comparison `|m * 10 ^ e| ≤ bound` in exact integer
arithmetic. -/
def decAbsLe (m e : Int) (bound : Nat) : Bool :=
  if e ≥ 0 then m.natAbs * 10 ^ e.toNat ≤ bound
  else m.natAbs ≤ bound * 10 ^ (-e).toNat

/-- Truncation toward zero of `m * 10 ^ e` (the `ToIntegerOrInfinity`
conversion; `Int` division already truncates toward zero). -/
def decTrunc (m e : Int) : Int :=
  if e ≥ 0 then m * 10 ^ e.toNat else m / 10 ^ (-e).toNat

/-- Numeric value of a list of decimal digits. -/
def decDigitsVal (l : List Char) : Nat :=
  l.foldl (fun a c => a * 10 + (c.toNat - 48)) 0

/-- Value of one digit in radix up to 16 (used by `0x`/`0o`/`0b` literals);
returns 16 for characters that are not hex digits. -/
def radixDigitVal (c : Char) : Nat :=
  if c.isDigit then c.toNat - 48
  else if 'a' ≤ c && c ≤ 'f' then c.toNat - 87
  else if 'A' ≤ c && c ≤ 'F' then c.toNat - 55
  else 16

/-- Check that a character is a digit of the given radix. -/
def isRadixDigit (radix : Nat) (c : Char) : Bool := radixDigitVal c < radix

/-- Parse an unsigned JS decimal literal `digits [. digits] [e[±]digits]`
(at least one digit on some side of the dot, nothing left over), as a
normalized decimal (mantissa, exponent) pair. -/
def parseDecLit (l : List Char) : Option (Int × Int) :=
  let intPart := l.takeWhile Char.isDigit
  let rest1 := l.drop intPart.length
  let (fracPart, rest2) :=
    match rest1 with
    | '.' :: r =>
      let f := r.takeWhile Char.isDigit
      (f, r.drop f.length)
    | _ => ([], rest1)
  if intPart.isEmpty && fracPart.isEmpty then none
  else
    let m : Int := (decDigitsVal (intPart ++ fracPart) : Int)
    let e0 : Int := -(fracPart.length : Int)
    match rest2 with
    | [] => some (m, e0)
    | e :: r =>
      if e == 'e' || e == 'E' then
        let (sgn, digs) :=
          match r with
          | '+' :: r2 => ((1 : Int), r2)
          | '-' :: r2 => ((-1 : Int), r2)
          | _ => ((1 : Int), r)
        if digs.isEmpty || !(digs.all Char.isDigit) then none
        else some (m, e0 + sgn * (decDigitsVal digs : Int))
      else none

/-- Parse the signed decimal / Infinity part of a JS string-to-number
conversion (sign not allowed on radix-prefixed literals, which are handled
separately). -/
def parseSignedNum (t : List Char) : Option JSNum :=
  let (neg, t2) :=
    match t with
    | '+' :: r => (false, r)
    | '-' :: r => (true, r)
    | _ => (false, t)
  if t2 = "Infinity".data then some (if neg then JSNum.negInf else JSNum.posInf)
  else (fun p => finDec (if neg then -p.1 else p.1) p.2) <$> parseDecLit t2

/-- Model of the JavaScript `Number(string)` conversion (`ToNumber` on
strings): whitespace-trimmed; empty string is 0; supports signed decimal
literals with exponent, `Infinity`, and unsigned `0x`/`0o`/`0b` literals.
`none` models a NaN result. -/
def jsToNumber (s : String) : Option JSNum :=
  let t := jsTrimL s.data
  if t.isEmpty then some (JSNum.fin 0 0)
  else
    match t with
    | '0' :: c :: rest =>
      if c == 'x' || c == 'X' then
        if !rest.isEmpty && rest.all (isRadixDigit 16) then
          some (finDec ((rest.foldl (fun a d => a * 16 + radixDigitVal d) 0 : Nat) : Int) 0)
        else none
      else if c == 'o' || c == 'O' then
        if !rest.isEmpty && rest.all (isRadixDigit 8) then
          some (finDec ((rest.foldl (fun a d => a * 8 + radixDigitVal d) 0 : Nat) : Int) 0)
        else none
      else if c == 'b' || c == 'B' then
        if !rest.isEmpty && rest.all (isRadixDigit 2) then
          some (finDec ((rest.foldl (fun a d => a * 2 + radixDigitVal d) 0 : Nat) : Int) 0)
        else none
      else parseSignedNum t
    | _ => parseSignedNum t

/-- UTF-8 encoding of one character as a byte list. -/
def utf8Bytes (c : Char) : List Nat :=
  let n := c.toNat
  if n < 0x80 then [n]
  else if n < 0x800 then [0xc0 + n / 64, 0x80 + n % 64]
  else if n < 0x10000 then [0xe0 + n / 4096, 0x80 + n / 64 % 64, 0x80 + n % 64]
  else [0xf0 + n / 262144, 0x80 + n / 4096 % 64, 0x80 + n / 64 % 64, 0x80 + n % 64]

/-- Is this a valid Unicode scalar value (Lean `Char` range)? -/
def validScalar (n : Nat) : Bool :=
  (n < 0xd800 || (0xdfff < n && n < 0x110000))

/-- Strict UTF-8 decoding of a byte list into characters; rejects overlong
forms, surrogates, truncated sequences and out-of-range code points, the
way `decodeURIComponent` does. -/
def utf8Decode : List Nat → Option (List Char)
  | [] => some []
  | b :: rest =>
    if b < 0x80 then (Char.ofNat b :: ·) <$> utf8Decode rest
    else if b < 0xc2 then none
    else if b < 0xe0 then
      match rest with
      | b2 :: r2 =>
        if 0x80 ≤ b2 && b2 < 0xc0 then
          (Char.ofNat ((b - 0xc0) * 64 + (b2 - 0x80)) :: ·) <$> utf8Decode r2
        else none
      | _ => none
    else if b < 0xf0 then
      match rest with
      | b2 :: b3 :: r2 =>
        if 0x80 ≤ b2 && b2 < 0xc0 && 0x80 ≤ b3 && b3 < 0xc0 then
          let n := (b - 0xe0) * 4096 + (b2 - 0x80) * 64 + (b3 - 0x80)
          if 0x800 ≤ n && validScalar n then (Char.ofNat n :: ·) <$> utf8Decode r2
          else none
        else none
      | _ => none
    else if b < 0xf5 then
      match rest with
      | b2 :: b3 :: b4 :: r2 =>
        if 0x80 ≤ b2 && b2 < 0xc0 && 0x80 ≤ b3 && b3 < 0xc0 && 0x80 ≤ b4 && b4 < 0xc0 then
          let n := (b - 0xf0) * 262144 + (b2 - 0x80) * 4096 + (b3 - 0x80) * 64 + (b4 - 0x80)
          if 0x10000 ≤ n && validScalar n then (Char.ofNat n :: ·) <$> utf8Decode r2
          else none
        else none
      | _ => none
    else none

/-- Hexadecimal digit test. -/
def isHexDigit (c : Char) : Bool := radixDigitVal c < 16

/-- Turn percent escapes into bytes and pass other characters through as
their UTF-8 bytes; `none` models a `URIError`. -/
def percentBytes : List Char → Option (List Nat)
  | [] => some []
  | '%' :: h1 :: h2 :: rest =>
    if isHexDigit h1 && isHexDigit h2 then
      ((radixDigitVal h1 * 16 + radixDigitVal h2) :: ·) <$> percentBytes rest
    else none
  | '%' :: _ => none
  | c :: rest => (utf8Bytes c ++ ·) <$> percentBytes rest

/-- Model of the JavaScript `decodeURIComponent` builtin; `none` models a
thrown `URIError`. -/
def decodeURIComponentL (l : List Char) : Option (List Char) :=
  percentBytes l >>= utf8Decode

/-- Characters left unescaped by `encodeURIComponent`. -/
def uriUnescaped (c : Char) : Bool :=
  c.isAlpha || c.isDigit || c == '-' || c == '_' || c == '.' || c == '!' ||
  c == '~' || c == '*' || c == '(' || c == ')' || c == squote

/-- Uppercase hex digit of a value below 16. -/
def hexUpper (n : Nat) : Char :=
  if n < 10 then Char.ofNat (48 + n) else Char.ofNat (55 + n)

/-- Model of the JavaScript `encodeURIComponent` builtin. -/
def encodeURIComponentL (l : List Char) : List Char :=
  l.flatMap (fun c =>
    if uriUnescaped c then [c]
    else (utf8Bytes c).flatMap (fun b => ['%', hexUpper (b / 16), hexUpper (b % 16)]))

/-- A JavaScript value as produced by the converter registry: primitive
values, `Date` objects (by their UTC time value) and regular expressions
(by source and case flag).  `strObject s` is the `String` wrapper object
`Object(s)`, produced when the bracket lookup `converters[tag]` reaches the
inherited `constructor` property (the `Object` constructor) and calls it on
the value part. -/
inductive JSValue where
  | str (s : String)
  | num (n : JSNum)
  | bool (b : Bool)
  | null
  | undef
  | date (ms : Int)
  | regex (source : String) (ignoreCase : Bool)
  | strObject (s : String)
deriving DecidableEq, Repr

/-- The error kinds thrown by the engine: `RQLParseError`,
`RQLConversionError` (from `errors.ts`), the runtime `URIError` that
`decodeURIComponent` can raise, and the runtime `TypeError` raised by
calling a non-function (the `converters['__proto__']` lookup).
`fuelExhausted` is a modelling artifact of the explicit recursion fuel; the
wrappers choose fuel large enough that it is never produced. -/
inductive RQLError where
  | parseError (msg : String)
  | conversionError (msg : String)
  | uriError (msg : String)
  | typeError (msg : String)
  | fuelExhausted
deriving DecidableEq, Repr

/-- JSON whitespace characters. -/
def jsonWsp (c : Char) : Bool := c == ' ' || c == '\t' || c == '\n' || c == '\r'

/-- Parse the body of a JSON string literal (after the opening quote),
returning the decoded characters and the input after the closing quote.
Handles all JSON escapes including surrogate pairs; lone surrogates
(representable in JS strings but not as Unicode scalars) are rejected. -/
def jsonStringChars : List Char → Option (List Char × List Char)
  | [] => none
  | c :: rest =>
    if c == dquote then some ([], rest)
    else if c == bslash then
      match rest with
      | [] => none
      | e :: r2 =>
        if e == dquote || e == bslash || e == '/' then
          (fun (cs, r) => (e :: cs, r)) <$> jsonStringChars r2
        else if e == 'b' then (fun (cs, r) => (Char.ofNat 8 :: cs, r)) <$> jsonStringChars r2
        else if e == 'f' then (fun (cs, r) => (Char.ofNat 12 :: cs, r)) <$> jsonStringChars r2
        else if e == 'n' then (fun (cs, r) => ('\n' :: cs, r)) <$> jsonStringChars r2
        else if e == 'r' then (fun (cs, r) => ('\r' :: cs, r)) <$> jsonStringChars r2
        else if e == 't' then (fun (cs, r) => ('\t' :: cs, r)) <$> jsonStringChars r2
        else if e == 'u' then
          match r2 with
          | h1 :: h2 :: h3 :: h4 :: r3 =>
            if [h1, h2, h3, h4].all isHexDigit then
              let n := ((radixDigitVal h1 * 16 + radixDigitVal h2) * 16 + radixDigitVal h3) * 16 +
                radixDigitVal h4
              if n < 0xd800 || 0xdfff < n then
                (fun (cs, r) => (Char.ofNat n :: cs, r)) <$> jsonStringChars r3
              else if n < 0xdc00 then
                match r3 with
                | e2 :: u2 :: h5 :: h6 :: h7 :: h8 :: r4 =>
                  if e2 == bslash && u2 == 'u' && [h5, h6, h7, h8].all isHexDigit then
                    let lo := ((radixDigitVal h5 * 16 + radixDigitVal h6) * 16 + radixDigitVal h7) * 16 +
                      radixDigitVal h8
                    if 0xdc00 ≤ lo && lo ≤ 0xdfff then
                      (fun (cs, r) =>
                        (Char.ofNat (0x10000 + (n - 0xd800) * 1024 + (lo - 0xdc00)) :: cs, r)) <$>
                        jsonStringChars r4
                    else none
                  else none
                | _ => none
              else none
            else none
          | _ => none
        else none
    else if c.toNat < 0x20 then none
    else (fun (cs, r) => (c :: cs, r)) <$> jsonStringChars rest

/-- Parse a JSON number literal, returning its value as a normalized
decimal pair and the rest of the input. -/
def jsonNumberParse (l : List Char) : Option ((Int × Int) × List Char) :=
  let (neg, l1) :=
    match l with
    | '-' :: r => (true, r)
    | _ => (false, l)
  match l1 with
  | [] => none
  | c :: _ =>
    if !c.isDigit then none
    else
      let digs := l1.takeWhile Char.isDigit
      if c == '0' && digs.length ≠ 1 then none
      else
        let l2 := l1.drop digs.length
        let (fracPart, l3) :=
          match l2 with
          | '.' :: r =>
            let f := r.takeWhile Char.isDigit
            (f, r.drop f.length)
          | _ => ([], l2)
        if l2 ≠ l3 && fracPart.isEmpty then none
        else
          let m0 : Int := (decDigitsVal (digs ++ fracPart) : Int)
          let m := if neg then -m0 else m0
          let e0 : Int := -(fracPart.length : Int)
          match l3 with
          | e :: r =>
            if e == 'e' || e == 'E' then
              let (esgn, edigs0) :=
                match r with
                | '+' :: r2 => ((1 : Int), r2)
                | '-' :: r2 => ((-1 : Int), r2)
                | _ => ((1 : Int), r)
              let edigs := edigs0.takeWhile Char.isDigit
              if edigs.isEmpty then none
              else
                some ((m, e0 + esgn * (decDigitsVal edigs : Int)), edigs0.drop edigs.length)
            else some ((m, e0), l3)
          | [] => some ((m, e0), l3)

/-- Model of the JavaScript `JSON.parse` builtin on the literal forms the
converters exercise: strings, numbers, `true`, `false`, `null`.  Structured
arrays and objects are outside the modelled fragment and fail. -/
def jsonParse (s : String) : Option JSValue :=
  let l := s.data.dropWhile jsonWsp
  let res : Option (JSValue × List Char) :=
    match l with
    | [] => none
    | c :: rest =>
      if c == dquote then (fun (cs, r) => (JSValue.str ⟨cs⟩, r)) <$> jsonStringChars rest
      else if c == 't' then
        if rest.take 3 = "rue".data then some (JSValue.bool true, rest.drop 3) else none
      else if c == 'f' then
        if rest.take 4 = "alse".data then some (JSValue.bool false, rest.drop 4) else none
      else if c == 'n' then
        if rest.take 3 = "ull".data then some (JSValue.null, rest.drop 3) else none
      else (fun (p, r) => (JSValue.num (finDec p.1 p.2), r)) <$> jsonNumberParse l
  match res with
  | some (v, r) => if (r.dropWhile jsonWsp).isEmpty then some v else none
  | none => none

/-- Days since the Unix epoch of a proleptic-Gregorian civil date with the
month in 1..12 (day may be out of range; callers add day offsets
linearly). -/
def daysFromCivil (y m d : Int) : Int :=
  let y2 := if m ≤ 2 then y - 1 else y
  let era := (if y2 ≥ 0 then y2 else y2 - 399) / 400
  let yoe := y2 - era * 400
  let mp := (m + 9) % 12
  let doy := (153 * mp + 2) / 5 + d - 1
  let doe := yoe * 365 + yoe / 4 - yoe / 100 + doy
  era * 146097 + doe - 719468

/-- Civil date from days since the Unix epoch. -/
def civilFromDays (z : Int) : Int × Int × Int :=
  let z2 := z + 719468
  let era := Int.fdiv z2 146097
  let doe := z2 - era * 146097
  let yoe := (doe - doe / 1460 + doe / 36524 - doe / 146096) / 365
  let y := yoe + era * 400
  let doy := doe - (365 * yoe + yoe / 4 - yoe / 100)
  let mp := (5 * doy + 2) / 153
  let d := doy - (153 * mp + 2) / 5 + 1
  let m := if mp < 10 then mp + 3 else mp - 9
  (if m ≤ 2 then y + 1 else y, m, d)

/-- Model of `Date.UTC(y, m0, d, h, mi, s, ms)` followed by `TimeClip`:
months overflow into years, years 0..99 map to 1900..1999, and time values
beyond ±8.64e15 ms are invalid (`none`). -/
def mkUTCTime (y m0 d h mi s ms : Int) : Option Int :=
  let yr := if 0 ≤ y && y ≤ 99 then y + 1900 else y
  let total := yr * 12 + m0
  let ya := Int.fdiv total 12
  let mm := total - ya * 12 + 1
  let days := daysFromCivil ya mm 1 + (d - 1)
  let t : Int := days * 86400000 + h * 3600000 + mi * 60000 + s * 1000 + ms
  if t.natAbs ≤ 8640000000000000 then some t else none

/-- Take exactly `k` decimal digits off the front of the input. -/
def takeDigits (k : Nat) (l : List Char) : Option (Nat × List Char) :=
  let digs := l.take k
  if digs.length = k && digs.all Char.isDigit then some (decDigitsVal digs, l.drop k)
  else none

/-- The strict ISO pattern of `converters.date`:
`^(\d{4})-(\d{2})-(\d{2})T(\d{2}):(\d{2}):(\d{2})(?:\.(\d{1,3}))?Z$`.
Returns the seven captured numbers (the optional fraction capture converted
by unary plus with `|| 0`, i.e. the raw digit-string value). -/
def isoStrict (l : List Char) : Option (Int × Int × Int × Int × Int × Int × Int) := do
  let (y, r1) ← takeDigits 4 l
  match r1 with
  | '-' :: r2 => do
    let (mo, r3) ← takeDigits 2 r2
    match r3 with
    | '-' :: r4 => do
      let (d, r5) ← takeDigits 2 r4
      match r5 with
      | 'T' :: r6 => do
        let (h, r7) ← takeDigits 2 r6
        match r7 with
        | ':' :: r8 => do
          let (mi, r9) ← takeDigits 2 r8
          match r9 with
          | ':' :: r10 => do
            let (s, r11) ← takeDigits 2 r10
            match r11 with
            | ['Z'] => some ((y : Int), (mo : Int), (d : Int), (h : Int), (mi : Int), (s : Int), 0)
            | '.' :: r12 =>
              let fd := r12.takeWhile Char.isDigit
              if 1 ≤ fd.length && fd.length ≤ 3 && r12.drop fd.length = ['Z'] then
                some ((y : Int), (mo : Int), (d : Int), (h : Int), (mi : Int), (s : Int),
                  (decDigitsVal fd : Int))
              else none
            | _ => none
          | _ => none
        | _ => none
      | _ => none
    | _ => none
  | _ => none

/-- Model of the ECMAScript `new Date(string)` fallback on the Date Time
String Format subset `YYYY[-MM[-DD]][THH:mm[:ss[.SSS]]][Z]`.  A missing time
zone on a date-time is host-local time in JS; the host zone is modelled as
UTC.  Other string shapes are invalid. -/
def esDateParse (l : List Char) : Option Int := do
  let (y, r1) ← takeDigits 4 l
  let (mo, r2) ←
    match r1 with
    | '-' :: rr => takeDigits 2 rr
    | _ => some (1, r1)
  let (d, r3) ←
    match r2 with
    | '-' :: rr => takeDigits 2 rr
    | _ => some (1, r2)
  if mo < 1 || 12 < mo || d < 1 || 31 < d then none
  else
    match r3 with
    | [] => mkUTCTime y ((mo : Int) - 1) d 0 0 0 0
    | 'T' :: r4 => do
      let (h, r5) ← takeDigits 2 r4
      let (mi, r6) ←
        match r5 with
        | ':' :: rr => takeDigits 2 rr
        | _ => none
      let (s, r7) ←
        match r6 with
        | ':' :: rr => takeDigits 2 rr
        | _ => some (0, r6)
      let (ms, r8) ←
        match r7 with
        | '.' :: rr =>
          let fd := rr.takeWhile Char.isDigit
          if 1 ≤ fd.length && fd.length ≤ 3 then
            some (decDigitsVal fd * 10 ^ (3 - fd.length), rr.drop fd.length)
          else none
        | _ => some (0, r7)
      let r9 ←
        match r8 with
        | ['Z'] => some ([] : List Char)
        | [] => some ([] : List Char)
        | _ => none
      if h > 24 || mi > 59 || s > 59 || !r9.isEmpty then none
      else mkUTCTime y ((mo : Int) - 1) d h mi s ms
    | _ => none

/-- Zero-padded decimal rendering. -/
def padNum (width n : Nat) : String :=
  let s := toString n
  ⟨List.replicate (width - s.length) '0' ++ s.data⟩

/-- Model of `Date.prototype.toISOString` for time values in the four-digit
year range. -/
def toISOString (ti : Int) : String :=
  let days := Int.fdiv ti 86400000
  let msday := (ti - days * 86400000).toNat
  let (y, m, d) := civilFromDays days
  padNum 4 y.toNat ++ "-" ++ padNum 2 m.toNat ++ "-" ++ padNum 2 d.toNat ++ "T" ++
  padNum 2 (msday / 3600000) ++ ":" ++ padNum 2 (msday / 60000 % 60) ++ ":" ++
  padNum 2 (msday / 1000 % 60) ++ "." ++ padNum 3 (msday % 1000) ++ "Z"

/-- ASCII lower-casing of a string (model of `String.prototype.toLowerCase`
on the inputs this code sees). -/
def jsToLowerStr (s : String) : String := ⟨s.data.map Char.toLower⟩

/-- JS `charAt` access: `none` models the empty string returned out of
range. -/
def jsCharAt (l : List Char) (i : Nat) : Option Char := l[i]?

/-- JS `substring(a, b)`: indices are clamped to the string and swapped when
out of order. -/
def jsSubstring (l : List Char) (a b : Nat) : List Char :=
  let a2 := min a l.length
  let b2 := min b l.length
  let s := min a2 b2
  let e := max a2 b2
  (l.drop s).take (e - s)

/-- First occurrence of a character, as used by `String.prototype.indexOf`
(the callers below only use it when the character is present). -/
def jsIndexOf (l : List Char) (c : Char) : Nat := l.findIdx (· == c)

/-- JS `String.prototype.replace` with a plain-string pattern: replaces the
first occurrence only. -/
def replaceFirstL (pat rep : List Char) : List Char → List Char
  | [] => []
  | c :: t =>
    if pat.isPrefixOf (c :: t) then rep ++ (c :: t).drop pat.length
    else c :: replaceFirstL pat rep t

/-- The `autoConverted` fixed-literal table of `converters.ts`. -/
def autoConvertedLookup (s : String) : Option JSValue :=
  if s = "true" then some (JSValue.bool true)
  else if s = "false" then some (JSValue.bool false)
  else if s = "null" then some JSValue.null
  else if s = "undefined" then some JSValue.undef
  else if s = "Infinity" then some (JSValue.num JSNum.posInf)
  else if s = "-Infinity" then some (JSValue.num JSNum.negInf)
  else none

namespace converters

/-- `converters.number`: `Number(x)`, throwing a conversion error on NaN. -/
def number (x : String) : Except RQLError JSValue :=
  match jsToNumber x with
  | some n => .ok (.num n)
  | none => .error (.conversionError "Invalid number NaN")

/-- `converters.string` as a string-valued helper: `decodeURIComponent`,
whose `URIError` propagates. -/
def stringCore (str : String) : Except RQLError String :=
  match decodeURIComponentL str.data with
  | some l => .ok ⟨l⟩
  | none => .error (.uriError "URI malformed")

/-- `converters.string` as registered in the converter table. -/
def string (str : String) : Except RQLError JSValue :=
  (fun s => JSValue.str s) <$> stringCore str

/-- `converters.boolean`: true iff the lower-cased string is `true`. -/
def boolean (x : String) : Except RQLError JSValue :=
  .ok (.bool (jsToLowerStr x == "true"))

/-- `converters.json`: `JSON.parse`, converting failure to a conversion
error. -/
def json (x : String) : Except RQLError JSValue :=
  match jsonParse x with
  | some v => .ok v
  | none => .error (.conversionError "Invalid JSON")

/-- `converters.epoch`: parse as number, interpret as a UTC millisecond
timestamp, reject out-of-range time values (`TimeClip`, which also
truncates toward zero). -/
def epoch (x : String) : Except RQLError JSValue := do
  let n ← number x
  match n with
  | .num (.fin m e) =>
    if decAbsLe m e 8640000000000000 then .ok (.date (decTrunc m e))
    else .error (.conversionError ("Invalid date " ++ x))
  | _ => .error (.conversionError ("Invalid date " ++ x))

/-- `converters.date`: the strict ISO pattern constructs the timestamp with
`Date.UTC`; other strings fall back to `new Date(x)`. -/
def date (x : String) : Except RQLError JSValue :=
  match isoStrict x.data with
  | some (y, mo, d, h, mi, s, ms) =>
    match mkUTCTime y (mo - 1) d h mi s ms with
    | some t => .ok (.date t)
    | none => .error (.conversionError ("Invalid date " ++ x))
  | none =>
    match esDateParse x.data with
    | some t => .ok (.date t)
    | none => .error (.conversionError ("Invalid date " ++ x))

/-- `converters.isodate`: pad a partial date out to a full UTC timestamp
using the template `0000-01-01T00:00:00Z`, then delegate to `date`. -/
def isodate (x : String) : Except RQLError JSValue :=
  let d1 : String := ⟨"0000".data.take (4 - x.length) ++ x.data⟩
  let d2 : String := ⟨d1.data ++ "0000-01-01T00:00:00Z".data.drop d1.length⟩
  date d2

/-- `converters.re`: case-insensitive regex from the percent-decoded
pattern.  Pattern-syntax validity of the `RegExp` builtin is not modelled:
every pattern compiles. -/
def re (x : String) : Except RQLError JSValue := do
  let s ← stringCore x
  .ok (.regex s true)

/-- `converters.RE`: case-sensitive regex from the percent-decoded
pattern (same modelling note as `re`). -/
def RE (x : String) : Except RQLError JSValue := do
  let s ← stringCore x
  .ok (.regex s false)

/-- `converters.auto`: fixed literal table, then number, then decoded
string; a decoded value wrapped in single quotes (checked with the raw
string's length, exactly as the code does) is re-parsed as a JSON string
built from the raw string's inner characters. -/
def auto (str : String) : Except RQLError JSValue :=
  match autoConvertedLookup str with
  | some v => .ok v
  | none =>
    match jsToNumber str with
    | some n => .ok (.num n)
    | none => do
      let strVal ← stringCore str
      if jsCharAt strVal.data 0 == some squote &&
          jsCharAt strVal.data (str.length - 1) == some squote then
        json ⟨dquote :: jsSubstring str.data 1 (str.length - 1) ++ [dquote]⟩
      else .ok (.str strVal)

/-- The converter registry: `converters[tag]` in the source is a JS
property access on an object literal, so beyond the own keys (with
`default` bound to `auto` as in `converters.ts`) it also reaches the
members inherited from `Object.prototype`.  Of those, exactly two are
all-lowercase and hence reachable through the case-folded tags that
`stringToValue` passes: `constructor` yields the truthy `Object`
constructor, so the value part is boxed into a `String` wrapper object
instead of throwing; `__proto__` yields the truthy (non-callable)
`Object.prototype`, so the subsequent call throws a runtime `TypeError`.
The remaining inherited names (`toString`, `valueOf`,
`hasOwnProperty`, ...) contain upper-case letters and are never produced
by the case-folding callers; they are outside this model. -/
def lookup (tag : String) : Option (String → Except RQLError JSValue) :=
  if tag = "auto" then some auto
  else if tag = "number" then some number
  else if tag = "epoch" then some epoch
  else if tag = "isodate" then some isodate
  else if tag = "date" then some date
  else if tag = "boolean" then some boolean
  else if tag = "string" then some string
  else if tag = "re" then some re
  else if tag = "RE" then some RE
  else if tag = "json" then some json
  else if tag = "default" then some auto
  else if tag = "constructor" then some (fun s => .ok (.strObject s))
  else if tag = "__proto__" then
    some (fun _ => .error (.typeError "converter is not a function"))
  else none

end converters

/-- The test `/^\w+[^\\]:/.test(str)` continued past the first word
character: either the current character is the single non-backslash
character and a colon follows, or it is a further word character and the
scan continues. -/
def tagTestFrom : List Char → Bool
  | a :: b :: rest => (a != bslash && b == ':') || (isWordChar a && tagTestFrom (b :: rest))
  | _ => false

/-- Model of `/^\w+[^\\]:/.test(str)`: one or more word characters, one
non-backslash character, then a colon, anchored at the start. -/
def tagTest : List Char → Bool
  | a :: rest => isWordChar a && tagTestFrom rest
  | [] => false

/-- `stringToValue` from `parser.ts`: detect an explicit converter tag via
the regex above, split at the first colon, look the case-folded tag up in
the registry (unknown tags are parse errors), un-escape one `\:` in the
remainder, and convert. -/
def stringToValue (str : String) : Except RQLError JSValue :=
  if tagTest str.data then
    let ind := jsIndexOf str.data ':'
    let converterPart := jsToLowerStr ⟨str.data.take ind⟩
    let valuePart : List Char := str.data.drop (ind + 1)
    match converters.lookup converterPart with
    | none => .error (.parseError ("Unknown converter: \"" ++ converterPart))
    | some conv => conv ⟨replaceFirstL [bslash, ':'] [':'] valuePart⟩
  else converters.auto ⟨replaceFirstL [bslash, ':'] [':'] str.data⟩

/-- The scanning loop of `inside` from `parser.ts`, one step per character,
carrying the one-shot escape flag, the quote state and the open-paren
count; returns the accumulated inside string when the count reaches zero
and fails when input runs out first. -/
def insideAux (delim : Char) : List Char → Bool → Option Char → Nat → Except RQLError (List Char)
  | [], _, _, _ => .error (.parseError "Could not find closing paren")
  | c :: rest, delimited, quoteType, untilCount =>
    if delimited then (c :: ·) <$> insideAux delim rest false quoteType untilCount
    else if quoteType == none && c == delim then insideAux delim rest true quoteType untilCount
    else if c == squote || c == dquote then
      if quoteType == none then (c :: ·) <$> insideAux delim rest false (some c) untilCount
      else if quoteType == some c then (c :: ·) <$> insideAux delim rest false none untilCount
      else (c :: ·) <$> insideAux delim rest false quoteType untilCount
    else if quoteType != none then (c :: ·) <$> insideAux delim rest false quoteType untilCount
    else if c == '(' then (c :: ·) <$> insideAux delim rest false quoteType (untilCount + 1)
    else if c == ')' then
      if untilCount == 1 then .ok []
      else (c :: ·) <$> insideAux delim rest false quoteType (untilCount - 1)
    else (c :: ·) <$> insideAux delim rest false quoteType untilCount

/-- `inside` on a character list: the first character is skipped (assumed to
be the opening paren), scanning starts with count 1. -/
def insideRun (l : List Char) : Except RQLError (List Char) :=
  insideAux bslash (l.drop 1) false none 1

/-- `inside` from `parser.ts` with the default backslash delimiter. -/
def inside (s : String) : Except RQLError String :=
  (fun l => (⟨l⟩ : String)) <$> insideRun s.data

/-- State-only mirror of the `inside` scanning loop over a body that
contains no unquoted delimiter and never closes the outermost paren:
returns the final quote state and open count, or `none` if the body would
drop a delimiter or end the scan early. -/
def scanState : List Char → Option Char → Nat → Option (Option Char × Nat)
  | [], q, n => some (q, n)
  | c :: rest, q, n =>
    if q == none && c == bslash then none
    else if c == squote || c == dquote then
      if q == none then scanState rest (some c) n
      else if q == some c then scanState rest none n
      else scanState rest q n
    else if q != none then scanState rest q n
    else if c == '(' then scanState rest q (n + 1)
    else if c == ')' then
      if n == 1 then none else scanState rest q (n - 1)
    else scanState rest q n

/-- A body is neutral when the `inside` scan passes over it verbatim:
no unquoted delimiter, quotes matched, parens balanced, and the outer
paren never closed. -/
def NeutralBody (l : List Char) : Prop := scanState l none 1 = some (none, 1)

instance (l : List Char) : Decidable (NeutralBody l) := by
  unfold NeutralBody; infer_instance

/-- Characters matched by `.` in the quote-stripping regexes of `trim`
(anything but a line terminator). -/
def isRegexDotChar (c : Char) : Bool :=
  !(c == '\n' || c == '\r' || c == Char.ofNat 0x2028 || c == Char.ofNat 0x2029)

/-- Does `/^q.*q$/` match this list (same quote at both ends, no line
terminator between)? -/
def quoteWrapped (l : List Char) (q : Char) : Bool :=
  2 ≤ l.length && l.head? == some q && l.getLast? == some q &&
  ((l.drop 1).dropLast.all isRegexDotChar)

/-- `trim` from `parser.ts`: JS whitespace trim, then strip one matching
pair of surrounding quotes. -/
def trim (str : String) : String :=
  let trimmed := jsTrimL str.data
  if quoteWrapped trimmed squote || quoteWrapped trimmed dquote then ⟨(trimmed.drop 1).dropLast⟩
  else ⟨trimmed⟩

/-- First alternative `( *,)` of the `toNextArg` regex at one position:
greedy spaces followed by a comma. -/
def matchSpacesComma : List Char → Option (List Char)
  | [] => none
  | c :: rest =>
    if c == ',' then some [',']
    else if c == ' ' then (fun m => c :: m) <$> matchSpacesComma rest
    else none

/-- Leftmost match of `/( *,)| *$/` (the `toNextArg` regex of
`splitArguments`): the matched text, possibly empty. -/
def execToNextArg : List Char → List Char
  | [] => []
  | c :: rest =>
    match matchSpacesComma (c :: rest) with
    | some m => m
    | none => if (c :: rest).all (· == ' ') then c :: rest else execToNextArg rest

/-- An argument string produced by `splitArguments`: either a plain string
or a nested array of them. -/
inductive SplitArg where
  | str (s : String)
  | arr (elems : List SplitArg)
deriving Repr

mutual

/-- Decidable equality for split arguments (manual: the inductive nests
`List`). -/
def SplitArg.deq : (a b : SplitArg) → Decidable (a = b)
  | .str a, .str b =>
    match decEq a b with
    | isTrue h => isTrue (by rw [h])
    | isFalse h => isFalse (by simp [h])
  | .str _, .arr _ => isFalse (fun h => SplitArg.noConfusion h)
  | .arr _, .str _ => isFalse (fun h => SplitArg.noConfusion h)
  | .arr a, .arr b =>
    match SplitArg.deqL a b with
    | isTrue h => isTrue (by rw [h])
    | isFalse h => isFalse (by simp [h])

/-- Decidable equality for lists of split arguments. -/
def SplitArg.deqL : (a b : List SplitArg) → Decidable (a = b)
  | [], [] => isTrue rfl
  | [], _ :: _ => isFalse (fun h => List.noConfusion h)
  | _ :: _, [] => isFalse (fun h => List.noConfusion h)
  | x :: xs, y :: ys =>
    match SplitArg.deq x y, SplitArg.deqL xs ys with
    | isTrue h1, isTrue h2 => isTrue (by rw [h1, h2])
    | isFalse h1, _ => isFalse (by simp [h1])
    | isTrue _, isFalse h2 => isFalse (by simp [h2])

end

instance : DecidableEq SplitArg := SplitArg.deq

/-- The scanning loop of `splitArguments` from `parser.ts`, structurally
recursive on an explicit fuel that every step decrements (so the kernel can
evaluate it); the wrapper's quadratic fuel always suffices.  Index
arithmetic of the source, including the `toNextArg` jump after an array, is
reproduced as list drops. -/
def splitArgumentsF (delim : Char) : Nat → List Char → List SplitArg → List Char → Bool → Option Char → Except RQLError (List SplitArg)
  | 0, _, _, _, _, _ => .error .fuelExhausted
  | _ + 1, [], args, cur, _, _ =>
    if 0 < (jsTrimL cur).length then .ok (args ++ [SplitArg.str (trim ⟨cur⟩)]) else .ok args
  | f + 1, c :: rest, args, cur, delimited, quoteType =>
    if delimited then splitArgumentsF delim f rest args (cur ++ [c]) false quoteType
    else if quoteType == none && c == delim then splitArgumentsF delim f rest args cur true quoteType
    else if c == squote || c == dquote then
      if quoteType == none then splitArgumentsF delim f rest args cur false (some c)
      else if quoteType == some c then splitArgumentsF delim f rest args cur false none
      else splitArgumentsF delim f rest args (cur ++ [c]) false quoteType
    else if quoteType != none then splitArgumentsF delim f rest args (cur ++ [c]) false quoteType
    else if cur.length == 0 then
      if c == '(' then do
        let arr ← insideRun (c :: rest)
        let sub ← splitArgumentsF bslash f arr [] [] false none
        let jump := (execToNextArg (rest.drop arr.length)).length
        splitArgumentsF delim f (rest.drop (arr.length + jump + 1))
          (args ++ [SplitArg.arr sub]) [] false none
      else if c == ' ' then splitArgumentsF delim f rest args cur false quoteType
      else splitArgumentsF delim f rest args [c] false quoteType
    else if c == ',' then
      splitArgumentsF delim f rest (args ++ [SplitArg.str (trim ⟨cur⟩)]) [] false quoteType
    else if c == '(' then do
      let strInside ← insideRun (c :: rest)
      splitArgumentsF delim f (rest.drop strInside.length) args (cur ++ c :: strInside) false quoteType
    else splitArgumentsF delim f rest args (cur ++ [c]) false quoteType

/-- `splitArguments` on a character list, with self-sufficient fuel (any
recursion path consumes at most quadratically many steps). -/
def splitArgumentsRun (l : List Char) : Except RQLError (List SplitArg) :=
  splitArgumentsF bslash ((l.length + 2) * (l.length + 2)) l [] [] false none

/-- `splitArguments` from `parser.ts` with the default backslash
delimiter. -/
def splitArguments (s : String) : Except RQLError (List SplitArg) :=
  splitArgumentsRun s.data

/-- A parsed RQL tree node: a plain operator object (as built by the
parser), a converted leaf value, an array argument, or an `RQLQuery` class
instance (distinguished because `RQLQuery.isRQLQuery` tests `instanceof`,
which plain parser output does not satisfy). -/
inductive Arg where
  | node (name : String) (args : List Arg)
  | val (v : JSValue)
  | arr (elems : List Arg)
  | rql (name : String) (args : List Arg)
deriving Repr

mutual

/-- Decidable equality for tree nodes (manual: the inductive nests
`List`). -/
def Arg.deq : (a b : Arg) → Decidable (a = b)
  | .node n1 a1, .node n2 a2 =>
    match decEq n1 n2, Arg.deqL a1 a2 with
    | isTrue h1, isTrue h2 => isTrue (by rw [h1, h2])
    | isFalse h1, _ => isFalse (by simp [h1])
    | isTrue _, isFalse h2 => isFalse (by simp [h2])
  | .val v1, .val v2 =>
    match decEq v1 v2 with
    | isTrue h => isTrue (by rw [h])
    | isFalse h => isFalse (by simp [h])
  | .arr a1, .arr a2 =>
    match Arg.deqL a1 a2 with
    | isTrue h => isTrue (by rw [h])
    | isFalse h => isFalse (by simp [h])
  | .rql n1 a1, .rql n2 a2 =>
    match decEq n1 n2, Arg.deqL a1 a2 with
    | isTrue h1, isTrue h2 => isTrue (by rw [h1, h2])
    | isFalse h1, _ => isFalse (by simp [h1])
    | isTrue _, isFalse h2 => isFalse (by simp [h2])
  | .node _ _, .val _ => isFalse (fun h => Arg.noConfusion h)
  | .node _ _, .arr _ => isFalse (fun h => Arg.noConfusion h)
  | .node _ _, .rql _ _ => isFalse (fun h => Arg.noConfusion h)
  | .val _, .node _ _ => isFalse (fun h => Arg.noConfusion h)
  | .val _, .arr _ => isFalse (fun h => Arg.noConfusion h)
  | .val _, .rql _ _ => isFalse (fun h => Arg.noConfusion h)
  | .arr _, .node _ _ => isFalse (fun h => Arg.noConfusion h)
  | .arr _, .val _ => isFalse (fun h => Arg.noConfusion h)
  | .arr _, .rql _ _ => isFalse (fun h => Arg.noConfusion h)
  | .rql _ _, .node _ _ => isFalse (fun h => Arg.noConfusion h)
  | .rql _ _, .val _ => isFalse (fun h => Arg.noConfusion h)
  | .rql _ _, .arr _ => isFalse (fun h => Arg.noConfusion h)

/-- Decidable equality for lists of tree nodes. -/
def Arg.deqL : (a b : List Arg) → Decidable (a = b)
  | [], [] => isTrue rfl
  | [], _ :: _ => isFalse (fun h => List.noConfusion h)
  | _ :: _, [] => isFalse (fun h => List.noConfusion h)
  | x :: xs, y :: ys =>
    match Arg.deq x y, Arg.deqL xs ys with
    | isTrue h1, isTrue h2 => isTrue (by rw [h1, h2])
    | isFalse h1, _ => isFalse (by simp [h1])
    | isTrue _, isFalse h2 => isFalse (by simp [h2])

end

instance : DecidableEq Arg := Arg.deq

/-- Model of `/\w+\(/.test` on a character list: some word character is
immediately followed by an opening paren. -/
def isRQLQueryL : List Char → Bool
  | c :: d :: rest => (isWordChar c && d == '(') || isRQLQueryL (d :: rest)
  | _ => false

/-- `isRQLQuery` from `parser.ts`. -/
def isRQLQuery (str : String) : Bool := isRQLQueryL str.data

mutual

/-- The character loop of `walkQuery` from `parser.ts` over the remaining
input, with the current operator under construction (name characters and
argument list) and the established aggregate top operator, if any
(`none` models `aggregateOperator === false`).  Structurally recursive on
an explicit fuel decremented at every step; the wrapper's quadratic fuel
always suffices. -/
def walkQueryF : Nat → List Char → List Char × List Arg → Option (String × List Arg) → Except RQLError Arg
  | 0, _, _, _ => .error .fuelExhausted
  | _ + 1, [], cur, top =>
    match top with
    | some (tn, targs) => .ok (.node tn (targs ++ [Arg.node ⟨cur.1⟩ cur.2]))
    | none => .ok (.node ⟨cur.1⟩ cur.2)
  | f + 1, c :: t, cur, top =>
    if c == '&' || c == ',' then
      match top with
      | some (tn, targs) =>
        if tn == "or" then do
          let sub ← walkQueryF f t ([], []) (some ("and", [Arg.node ⟨cur.1⟩ cur.2]))
          .ok (.node tn (targs ++ [sub]))
        else walkQueryF f t ([], []) (some (tn, targs ++ [Arg.node ⟨cur.1⟩ cur.2]))
      | none => walkQueryF f t ([], []) (some ("and", [Arg.node ⟨cur.1⟩ cur.2]))
    else if c == '|' then
      match top with
      | some (tn, targs) =>
        if tn == "and" then do
          let sub ← walkQueryF f t ([], []) (some ("or", []))
          .ok (.node tn (targs ++ [Arg.node ⟨cur.1⟩ cur.2, sub]))
        else walkQueryF f t ([], []) (some (tn, targs ++ [Arg.node ⟨cur.1⟩ cur.2]))
      | none => walkQueryF f t ([], []) (some ("or", [Arg.node ⟨cur.1⟩ cur.2]))
    else if c == '(' then do
      let insides ← insideRun (c :: t)
      let spl ← splitArgumentsRun insides
      let newArgs ← parseArgsF f spl
      walkQueryF f (t.drop (insides.length + 1)) (cur.1, newArgs) top
    else walkQueryF f t (cur.1 ++ [c], cur.2) top

/-- `parseArg` from `parser.ts`: strings that look like operator calls are
walked recursively, other strings go through `stringToValue`; arrays map
recursively. -/
def parseArgF : Nat → SplitArg → Except RQLError Arg
  | 0, _ => .error .fuelExhausted
  | f + 1, .str s =>
    if isRQLQuery s then walkQueryF f s.data ([], []) none
    else (Arg.val ·) <$> stringToValue s
  | f + 1, .arr l => (Arg.arr ·) <$> parseArgsF f l

/-- Left-to-right `map parseArg` over split arguments, propagating the
first error as thrown exceptions do. -/
def parseArgsF : Nat → List SplitArg → Except RQLError (List Arg)
  | 0, _ => .error .fuelExhausted
  | _ + 1, [] => .ok []
  | f + 1, a :: rest => do
    let x ← parseArgF f a
    let xs ← parseArgsF f rest
    .ok (x :: xs)

end

/-- `walkQuery` from `parser.ts` with no inherited top operator; the
quadratic fuel dominates the total number of recursion steps on any
input. -/
def walkQuery (query : String) : Except RQLError Arg :=
  walkQueryF ((query.length + 2) * (query.length + 2)) query.data ([], []) none

/-- Global string replacement (JS `replace` with a `/g` literal-text
regex): leftmost, non-overlapping, replacements not re-scanned.  The fuel
is at least the input length, so it never runs out. -/
def replaceAllF : Nat → List Char → List Char → List Char → List Char
  | 0, _, _, l => l
  | _ + 1, _, _, [] => []
  | fuel + 1, pat, rep, c :: t =>
    if pat.isPrefixOf (c :: t) then rep ++ replaceAllF fuel pat rep ((c :: t).drop pat.length)
    else c :: replaceAllF fuel pat rep t

/-- The character class of the parenthesized property/value alternative in
the normalizer regex: `[\+\*\$\-:\w%\._,]`. -/
def propParenChar (c : Char) : Bool :=
  c == '+' || c == '*' || c == '$' || c == '-' || c == ':' || isWordChar c ||
  c == '%' || c == '.' || c == ','

/-- The character class of the bare property run: `[\+\*\$\-: \w%\._]`. -/
def propRunChar (c : Char) : Bool :=
  c == '+' || c == '*' || c == '$' || c == '-' || c == ':' || c == ' ' ||
  isWordChar c || c == '%' || c == '.'

/-- The character class of the bare value run: `[\+\*\$\-:\w %\._]` (the
same character set as the property run). -/
def valueRunChar (c : Char) : Bool :=
  c == '+' || c == '*' || c == '$' || c == '-' || c == ':' || isWordChar c ||
  c == ' ' || c == '%' || c == '.'

/-- Match the parenthesized alternative `\((class)+\)` at the current
position: a nonempty run of class characters between literal parens.
Greediness is deterministic because the class excludes both parens. -/
def matchParenGroup (l : List Char) : Option (List Char × List Char) :=
  match l with
  | '(' :: t =>
    let run := t.takeWhile propParenChar
    if run.isEmpty then none
    else
      match t.drop run.length with
      | ')' :: rest => some ('(' :: run ++ [')'], rest)
      | _ => none
  | _ => none

/-- Match the first operator alternative `[<>!]?=(?:[\w]*=)?`.  The
backtracking of the regex engine is deterministic here: the optional prefix
characters are never `=`, and `\w` never matches `=`, so each greedy choice
either succeeds outright or fails outright. -/
def matchOpA (l : List Char) : Option (List Char × List Char) :=
  let (pre, l1) :=
    match l with
    | c :: t => if c == '<' || c == '>' || c == '!' then ([c], t) else (([] : List Char), l)
    | [] => ([], l)
  match l1 with
  | '=' :: t2 =>
    let run := t2.takeWhile isWordChar
    match t2.drop run.length with
    | '=' :: rest => some (pre ++ '=' :: run ++ ['='], rest)
    | _ => some (pre ++ ['='], t2)
  | _ => none

/-- Match the operator group `([<>!]?=(?:[\w]*=)?|>|<)`, alternatives in
source order. -/
def matchOp (l : List Char) : Option (List Char × List Char) :=
  match matchOpA l with
  | some r => some r
  | none =>
    match l with
    | '>' :: t => some (['>'], t)
    | '<' :: t => some (['<'], t)
    | _ => none

/-- Match the value group: parenthesized alternative first, then a possibly
empty greedy class run. -/
def matchValue (l : List Char) : List Char × List Char :=
  match matchParenGroup l with
  | some r => r
  | none =>
    let run := l.takeWhile valueRunChar
    (run, l.drop run.length)

/-- Attempt the whole normalizer regex at the current position, returning
the three captured groups and the rest of the input.  Group interactions
need no backtracking: no property-class character can start an operator,
and after a failed parenthesized property the bare-run alternative is
empty and the operator then fails on `(` as well. -/
def tryMatchAt (l : List Char) : Option (List Char × List Char × List Char × List Char) :=
  match matchParenGroup l with
  | some (prop, l1) =>
    match matchOp l1 with
    | some (op, l2) =>
      let (v, l3) := matchValue l2
      some (prop, op, v, l3)
    | none => none
  | none =>
    let run := l.takeWhile propRunChar
    match matchOp (l.drop run.length) with
    | some (op, l2) =>
      let (v, l3) := matchValue l2
      some (run, op, v, l3)
    | none => none

/-- The `operatorMap` table of `parser.ts`. -/
def operatorMap (op : List Char) : Option (List Char) :=
  if op = "!=".data then some "ne".data
  else if op = "<".data then some "lt".data
  else if op = "<=".data then some "le".data
  else if op = "=".data then some "eq".data
  else if op = "==".data then some "eq".data
  else if op = ">".data then some "gt".data
  else if op = ">=".data then some "ge".data
  else none

/-- The global replace of the normalizer: scan left to right, apply the
regex at each position, and rewrite each match `prop/op/value` through the
replacement callback (short operators via `operatorMap`, longer ones
stripped of their first and last character), failing on an unmapped short
operator.  Each match consumes at least the operator, so fuel `length + 1`
always suffices. -/
def normalizeReplaceF : Nat → List Char → Except RQLError (List Char)
  | 0, l => .ok l
  | _ + 1, [] => .ok []
  | fuel + 1, c :: t =>
    match tryMatchAt (c :: t) with
    | some (prop, op, v, rest) => do
      let opName ←
        if op.length < 3 then
          match operatorMap op with
          | none => .error (.parseError ("Illegal operator: \"" ++ (⟨op⟩ : String) ++ "\""))
          | some m => .ok m
        else .ok ((op.drop 1).dropLast)
      let tail ← normalizeReplaceF fuel rest
      .ok (opName ++ '(' :: prop ++ ',' :: v ++ ')' :: tail)
    | none => do
      let tail ← normalizeReplaceF fuel t
      .ok (c :: tail)

/-- `normalizeSyntax` from `parser.ts`: the four percent-encoded
angle-bracket rewrites, then the infix-to-prefix regex replace. -/
def normalizeSyntax (query : String) : Except RQLError String :=
  let l1 := replaceAllF (query.length + 1) "%3C=".data "=le=".data query.data
  let l2 := replaceAllF (l1.length + 1) "%3E=".data "=ge=".data l1
  let l3 := replaceAllF (l2.length + 1) "%3C".data "=lt=".data l2
  let l4 := replaceAllF (l3.length + 1) "%3E".data "=gt=".data l3
  (fun l => (⟨l⟩ : String)) <$> normalizeReplaceF (l4.length + 1) l4

/-- `parse` from `parser.ts`: reject empty queries and queries starting
with `?`, then normalize and walk. -/
def parse (query : String) : Except RQLError Arg :=
  if query = "" then .error (.parseError ("Query empty or invalid: " ++ query))
  else if jsCharAt query.data 0 == some '?' then
    .error (.parseError ("Query must not start with ?: " ++ query))
  else do
    let n ← normalizeSyntax query
    walkQuery n

/-- Rendering of a JS number by `toString`: exact for integers and plain
decimals, the only numeric values this embedding constructs (the
exponential notation JS switches to beyond 1e21 is not modelled). -/
def jsNumToString (n : JSNum) : String :=
  match n with
  | .posInf => "Infinity"
  | .negInf => "-Infinity"
  | .fin m e =>
    if e ≥ 0 then toString (m * 10 ^ e.toNat)
    else
      let k := (-e).toNat
      let sign := if m < 0 then "-" else ""
      let na := m.natAbs
      sign ++ toString (na / 10 ^ k) ++ "." ++ padNum k (na % 10 ^ k)

/-- JS strict equality `val === convertedValue` between the original value
and the freshly converted one: value equality on primitives, always false
against objects (`Date`, `RegExp`, plain objects, arrays), which compare by
identity. -/
def argStrictEq (a : Arg) (v : JSValue) : Bool :=
  match a, v with
  | .val (.str s1), .str s2 => s1 == s2
  | .val (.num n1), .num n2 => decide (n1 = n2)
  | .val (.bool b1), .bool b2 => b1 == b2
  | .val .null, .null => true
  | .val .undef, .undef => true
  | _, _ => false

/-- JS `typeof` for the modelled values. -/
def typeofArg (a : Arg) : String :=
  match a with
  | .val (.str _) => "string"
  | .val (.num _) => "number"
  | .val (.bool _) => "boolean"
  | .val .undef => "undefined"
  | _ => "object"

namespace RQLQuery

/-- `RQLQuery.encodeString`: `encodeURIComponent`, then (when a paren is
present) one `replace` for each paren — string-pattern `replace`, so only
the first occurrence of each is rewritten. -/
def encodeString (str : String) : String :=
  let e := encodeURIComponentL str.data
  if e.any (fun c => c == '(' || c == ')') then
    ⟨replaceFirstL [')'] "%29".data (replaceFirstL ['('] "%28".data e)⟩
  else ⟨e⟩

mutual

/-- `RQLQuery.queryToString` (fueled): arrays render parenthesized,
`RQLQuery` instances render as calls, everything else (including the
parser's plain operator objects, which fail the `instanceof` test) goes
through `encodeValue`. -/
def queryToStringF : Nat → Arg → Except RQLError String
  | 0, _ => .error .fuelExhausted
  | f + 1, .arr part => do
    let s ← serializeArgsF f part ","
    .ok ("(" ++ s ++ ")")
  | f + 1, .rql name args => do
    let s ← serializeArgsF f args ","
    .ok (name ++ "(" ++ s ++ ")")
  | f + 1, part => encodeValueF f part

/-- `RQLQuery.serializeArgs` (fueled): arguments serialized and joined with
the delimiter. -/
def serializeArgsF : Nat → List Arg → String → Except RQLError String
  | 0, _, _ => .error .fuelExhausted
  | _ + 1, [], _ => .ok ""
  | f + 1, [a], _ => queryToStringF f a
  | f + 1, a :: rest, delim => do
    let s ← queryToStringF f a
    let t ← serializeArgsF f rest delim
    .ok (s ++ delim ++ t)

/-- `RQLQuery.encodeValue` (fueled): `null` renders literally; otherwise
the value's string form is re-converted through the default converter, a
value that round-trips is emitted untagged (strings percent-encoded), and
one that does not is prefixed with `re`/`RE`, `date`, `string`, or its
`typeof` name (the last case percent-encoded whole, tag included). -/
def encodeValueF : Nat → Arg → Except RQLError String
  | 0, _ => .error .fuelExhausted
  | _ + 1, .val .null => .ok "null"
  | f + 1, a => do
    let s0 ← jsArgToStringF f a
    let converted ← converters.auto s0
    if argStrictEq a converted then
      match a with
      | .val (.str s) => .ok (encodeString s)
      | _ => .ok s0
    else
      match a with
      | .val (.regex src ic) => .ok ((if ic then "re" else "RE") ++ ":" ++ encodeString src)
      | .val (.date ms) => .ok ("date:" ++ toISOString ms)
      | .val (.str s) => .ok ("string:" ++ encodeString s)
      | _ => .ok (encodeString (typeofArg a ++ ":" ++ s0))

/-- JS `toString` of a tree value (fueled): strings verbatim, numbers and
primitives by their text, plain objects as `[object Object]`, `RQLQuery`
instances via their custom `toString` (which is `queryToString`), arrays
via `Array.prototype.toString`.  `Date#toString` is host-locale text in
JS; it is modelled as the ISO string (it is only fed to the default
converter, whose output for it is discarded). -/
def jsArgToStringF : Nat → Arg → Except RQLError String
  | 0, _ => .error .fuelExhausted
  | _ + 1, .val (.str s) => .ok s
  | _ + 1, .val (.num n) => .ok (jsNumToString n)
  | _ + 1, .val (.bool b) => .ok (if b then "true" else "false")
  | _ + 1, .val .null => .ok "null"
  | _ + 1, .val .undef => .ok "undefined"
  | _ + 1, .val (.date ms) => .ok (toISOString ms)
  | _ + 1, .val (.regex src ic) => .ok ("/" ++ src ++ "/" ++ (if ic then "i" else ""))
  | _ + 1, .val (.strObject s) => .ok s
  | _ + 1, .node _ _ => .ok "[object Object]"
  | f + 1, .rql name args => do
    let s ← serializeArgsF f args ","
    .ok (name ++ "(" ++ s ++ ")")
  | f + 1, .arr elems => jsArrayToStringF f elems

/-- `Array.prototype.toString` (fueled): elements joined with commas. -/
def jsArrayToStringF : Nat → List Arg → Except RQLError String
  | 0, _ => .error .fuelExhausted
  | _ + 1, [] => .ok ""
  | f + 1, [a] => jsArrayElemF f a
  | f + 1, a :: rest => do
    let s ← jsArrayElemF f a
    let t ← jsArrayToStringF f rest
    .ok (s ++ "," ++ t)

/-- One array element in `Array.prototype.toString` (fueled): `null` and
`undefined` render empty. -/
def jsArrayElemF : Nat → Arg → Except RQLError String
  | 0, _ => .error .fuelExhausted
  | _ + 1, .val .null => .ok ""
  | _ + 1, .val .undef => .ok ""
  | f + 1, a => jsArgToStringF f a

end

end RQLQuery

mutual

/-- A fuel budget that dominates every recursion path of the serializer on
this node. -/
def argFuel : Arg → Nat
  | .node n args => 8 + n.length + argsFuel args
  | .val _ => 8
  | .arr l => 8 + argsFuel l
  | .rql n args => 8 + n.length + argsFuel args

/-- Fuel budget for a list of nodes. -/
def argsFuel : List Arg → Nat
  | [] => 1
  | a :: rest => 1 + argFuel a + argsFuel rest

end

namespace RQLQuery

/-- `RQLQuery.queryToString` with self-sufficient fuel. -/
def queryToString (a : Arg) : Except RQLError String := queryToStringF (argFuel a) a

/-- `RQLQuery.serializeArgs` with self-sufficient fuel. -/
def serializeArgs (args : List Arg) (delim : String) : Except RQLError String :=
  serializeArgsF (argsFuel args) args delim

/-- `RQLQuery.encodeValue` with self-sufficient fuel. -/
def encodeValue (a : Arg) : Except RQLError String := encodeValueF (argFuel a) a

end RQLQuery

/-- The escaping of a body for the `inside` scanner: every closing paren
prefixed with the backslash delimiter. -/
def escapeCloseParens (s : List Char) : List Char :=
  s.flatMap (fun c => if c = ')' then [bslash, ')'] else [c])

/-- Scanning a neutral body is transparent: the `inside` loop copies it
verbatim and continues on the rest in the state that `scanState`
computes. -/
theorem insideAux_frame (body : List Char) : ∀ (rest : List Char) (q : Option Char) (n : Nat)
    (q2 : Option Char) (n2 : Nat), scanState body q n = some (q2, n2) →
    insideAux bslash (body ++ rest) false q n =
      (fun l => body ++ l) <$> insideAux bslash rest false q2 n2 := by
  induction body with
  | nil =>
    intro rest q n q2 n2 h
    simp only [scanState, Option.some.injEq, Prod.mk.injEq] at h
    obtain ⟨h1, h2⟩ := h
    subst h1; subst h2
    simp only [List.nil_append]
    cases insideAux bslash rest false q n <;> simp [Except.map]
  | cons c body ih =>
    intro rest q n q2 n2 h
    simp only [scanState] at h
    by_cases h1 : (q == none && c == bslash) = true
    · simp [h1] at h
    · rw [if_neg h1] at h
      by_cases h2 : (c == squote || c == dquote) = true
      · rw [if_pos h2] at h
        have hcb : (c == bslash) = false := by
          rcases Bool.or_eq_true .. |>.mp h2 with hc | hc
          · rw [beq_iff_eq.mp hc]; decide
          · rw [beq_iff_eq.mp hc]; decide
        by_cases h3 : (q == none) = true
        · rw [if_pos h3] at h
          have hrec := ih rest (some c) n q2 n2 h
          simp only [List.cons_append, insideAux, h1, h2, h3, hcb, if_false, if_true,
            Bool.false_eq_true, Bool.true_eq_false, Bool.true_and, Bool.and_false, Bool.and_true, Bool.false_and, List.append_eq]
          rw [hrec]
          cases insideAux bslash rest false q2 n2 <;> simp [Except.map]
        · rw [if_neg h3] at h
          by_cases h4 : (q == some c) = true
          · rw [if_pos h4] at h
            have hrec := ih rest none n q2 n2 h
            simp only [List.cons_append, insideAux, h1, h2, h3, h4, hcb, if_false, if_true,
              Bool.false_eq_true, Bool.true_eq_false, Bool.true_and, Bool.and_false, Bool.and_true, Bool.false_and, List.append_eq]
            rw [hrec]
            cases insideAux bslash rest false q2 n2 <;> simp [Except.map]
          · rw [if_neg h4] at h
            have hrec := ih rest q n q2 n2 h
            simp only [List.cons_append, insideAux, h1, h2, h3, h4, hcb, if_false, if_true,
              Bool.false_eq_true, Bool.true_eq_false, Bool.true_and, Bool.and_false, Bool.and_true, Bool.false_and, List.append_eq]
            rw [hrec]
            cases insideAux bslash rest false q2 n2 <;> simp [Except.map]
      · rw [if_neg h2] at h
        by_cases h3 : (q != none) = true
        · rw [if_pos h3] at h
          have hrec := ih rest q n q2 n2 h
          simp only [List.cons_append, insideAux, h1, h2, h3, if_false, if_true,
            Bool.false_eq_true, Bool.true_eq_false, Bool.true_and, Bool.and_false, Bool.and_true, Bool.false_and, List.append_eq]
          rw [hrec]
          cases insideAux bslash rest false q2 n2 <;> simp [Except.map]
        · rw [if_neg h3] at h
          by_cases h4 : (c == '(') = true
          · rw [if_pos h4] at h
            have hrec := ih rest q (n + 1) q2 n2 h
            simp only [List.cons_append, insideAux, h1, h2, h3, h4, if_false, if_true,
              Bool.false_eq_true, Bool.true_eq_false, Bool.true_and, Bool.and_false, Bool.and_true, Bool.false_and, List.append_eq]
            rw [hrec]
            cases insideAux bslash rest false q2 n2 <;> simp [Except.map]
          · rw [if_neg h4] at h
            by_cases h5 : (c == ')') = true
            · rw [if_pos h5] at h
              by_cases h6 : (n == 1) = true
              · simp [h6] at h
              · rw [if_neg h6] at h
                have hrec := ih rest q (n - 1) q2 n2 h
                simp only [List.cons_append, insideAux, h1, h2, h3, h4, h5, h6, if_false, if_true,
                  Bool.false_eq_true, Bool.true_eq_false, Bool.true_and, Bool.and_false, Bool.and_true, Bool.false_and, List.append_eq]
                rw [hrec]
                cases insideAux bslash rest false q2 n2 <;> simp [Except.map]
            · rw [if_neg h5] at h
              have hrec := ih rest q n q2 n2 h
              simp only [List.cons_append, insideAux, h1, h2, h3, h4, h5, if_false, if_true,
                Bool.false_eq_true, Bool.true_eq_false, Bool.true_and, Bool.and_false, Bool.and_true, Bool.false_and, List.append_eq]
              rw [hrec]
              cases insideAux bslash rest false q2 n2 <;> simp [Except.map]

/-- On a neutral body, `inside` of `(body)` followed by anything returns
exactly the body. -/
theorem insideRun_neutral (body rest : List Char) (h : NeutralBody body) :
    insideRun ('(' :: body ++ ')' :: rest) = .ok body := by
  have hframe := insideAux_frame body (')' :: rest) none 1 none 1 h
  simp only [insideRun]
  rw [show List.drop 1 ('(' :: body ++ ')' :: rest) = body ++ ')' :: rest from rfl]
  rw [hframe]
  simp [insideAux, squote, dquote, bslash]

/-- A flat query segment: an operator call `name(body)` whose parsed
argument list is `args`. -/
structure SegT where
  name : List Char
  body : List Char
  args : List Arg

/-- The text of one segment. -/
def segChars (s : SegT) : List Char := s.name ++ '(' :: s.body ++ [')']

/-- The text of a nonempty segment sequence interleaved with one joiner
character before each later segment. -/
def segsChars : SegT → List (Char × SegT) → List Char
  | s, [] => segChars s
  | s, (j, s2) :: rest => segChars s ++ j :: segsChars s2 rest

/-- The operator node a segment parses to. -/
def segNode (s : SegT) : Arg := .node ⟨s.name⟩ s.args

/-- Name characters that the walker treats as plain (no joiner, no opening
paren). -/
def PlainName (l : List Char) : Prop :=
  ∀ c ∈ l, c ≠ '&' ∧ c ≠ ',' ∧ c ≠ '|' ∧ c ≠ '('

instance (l : List Char) : Decidable (PlainName l) := by
  unfold PlainName; infer_instance

/-- A segment parses cleanly when its name is plain, its body is neutral
for the scanner, and splitting plus argument parsing at the given fuel
produces its recorded arguments. -/
def SegParses (s : SegT) (f : Nat) : Prop :=
  PlainName s.name ∧ NeutralBody s.body ∧
  (splitArgumentsRun s.body >>= parseArgsF f) = .ok s.args

instance (s : SegT) (f : Nat) : Decidable (SegParses s f) := by
  unfold SegParses; infer_instance

/-- The walker fuel available right after a segment opening paren is
consumed, as a function of the remaining joined segments (`F` is slack
added uniformly so that argument parsing has enough fuel). -/
def tailFuel (F : Nat) : List (Char × SegT) → Nat
  | [] => F + 1
  | (_, s) :: rest => tailFuel F rest + s.name.length + 2

/-- The walker fuel needed at the start of a segment sequence. -/
def startFuel (F : Nat) (s : SegT) (rest : List (Char × SegT)) : Nat :=
  tailFuel F rest + s.name.length + 1

/-- Every segment of the sequence parses at the exact fuel the walker will
hand it. -/
def SegsOk (F : Nat) : SegT → List (Char × SegT) → Prop
  | s, [] => SegParses s (tailFuel F [])
  | s, (j, s2) :: rest2 => SegParses s (tailFuel F ((j, s2) :: rest2)) ∧ SegsOk F s2 rest2

instance (F : Nat) (s : SegT) (rest : List (Char × SegT)) : Decidable (SegsOk F s rest) := by
  induction rest generalizing s with
  | nil => unfold SegsOk; infer_instance
  | cons p rest ih =>
    obtain ⟨j, s2⟩ := p
    unfold SegsOk
    have := ih s2
    infer_instance

/-- Scanning the plain characters of an operator name appends them to the
current operator name, one unit of fuel each. -/
theorem walk_name (nm : List Char) : ∀ (rest : List Char) (f : Nat) (acc : List Char)
    (args : List Arg) (top : Option (String × List Arg)), PlainName nm →
    walkQueryF (nm.length + f) (nm ++ rest) (acc, args) top =
      walkQueryF f rest (acc ++ nm, args) top := by
  induction nm with
  | nil => intro rest f acc args top _; simp
  | cons c nm ih =>
    intro rest f acc args top hp
    obtain ⟨hc1, hc2, hc3, hc4⟩ := hp c (by simp)
    have hlen : (c :: nm).length + f = (nm.length + f) + 1 := by simp [List.length_cons]; omega
    rw [hlen]
    simp only [List.cons_append, walkQueryF, List.append_eq]
    rw [if_neg (by simp [hc1, hc2]), if_neg (by simp [hc3]), if_neg (by simp [hc4])]
    rw [ih rest f (acc ++ [c]) args top (fun d hd => hp d (by simp [hd]))]
    simp

/-- Walking a clean segment builds its operator node: the name is scanned,
the paren body is extracted verbatim, and the split arguments parse to the
recorded list, leaving the walk on the remaining text. -/
theorem walk_segment (s : SegT) (f : Nat) (rest : List Char) (top : Option (String × List Arg))
    (h : SegParses s f) :
    walkQueryF (s.name.length + (f + 1)) (segChars s ++ rest) ([], []) top =
      walkQueryF f rest (s.name, s.args) top := by
  obtain ⟨hname, hbody, hargs⟩ := h
  have htext : segChars s ++ rest = s.name ++ ('(' :: s.body ++ ')' :: rest) := by
    simp [segChars]
  rw [htext, walk_name s.name ('(' :: s.body ++ ')' :: rest) (f + 1) [] [] top hname]
  simp only [List.nil_append, walkQueryF]
  rw [if_neg (by decide), if_neg (by decide), if_pos (by decide)]
  simp only [List.append_eq]
  rw [show ('(' :: (s.body ++ ')' :: rest)) = '(' :: s.body ++ ')' :: rest by simp]
  rw [insideRun_neutral s.body rest hbody]
  have hdrop : (s.body ++ ')' :: rest).drop (s.body.length + 1) = rest := by
    rw [show s.body ++ ')' :: rest = (s.body ++ [')']) ++ rest by simp]
    rw [show s.body.length + 1 = (s.body ++ [')']).length by simp]
    exact List.drop_left _ _
  cases hsp : splitArgumentsRun s.body with
  | error e =>
    rw [hsp] at hargs
    rw [show (Except.error e >>= parseArgsF f : Except RQLError (List Arg)) = Except.error e
      from rfl] at hargs
    exact absurd hargs (by simp)
  | ok spl =>
    rw [hsp] at hargs
    rw [show (Except.ok spl >>= parseArgsF f : Except RQLError (List Arg)) = parseArgsF f spl
      from rfl] at hargs
    show (Except.ok s.body >>= fun insides => splitArgumentsRun insides >>=
      fun spl => parseArgsF f spl >>= fun newArgs =>
        walkQueryF f ((s.body ++ ')' :: rest).drop (insides.length + 1)) (s.name, newArgs) top) = _
    rw [show (Except.ok s.body >>= fun insides => splitArgumentsRun insides >>=
      fun spl => parseArgsF f spl >>= fun newArgs =>
        walkQueryF f ((s.body ++ ')' :: rest).drop (insides.length + 1)) (s.name, newArgs) top)
      = (splitArgumentsRun s.body >>= fun spl => parseArgsF f spl >>= fun newArgs =>
        walkQueryF f ((s.body ++ ')' :: rest).drop (s.body.length + 1)) (s.name, newArgs) top)
      from rfl]
    rw [hsp, hdrop]
    show parseArgsF f spl >>= (fun newArgs => walkQueryF f rest (s.name, newArgs) top) = _
    rw [hargs]
    rfl

/-- Walking a joined sequence of clean segments under an established
aggregate accumulates one operator node per segment, in source order. -/
theorem walk_join : ∀ (rest : List (Char × SegT)) (s : SegT) (F : Nat) (nodeName : String)
    (acc : List Arg),
    ((nodeName = "and" ∧ ∀ p ∈ rest, p.1 = '&' ∨ p.1 = ',') ∨
      (nodeName = "or" ∧ ∀ p ∈ rest, p.1 = '|')) →
    SegsOk F s rest →
    walkQueryF (startFuel F s rest) (segsChars s rest) ([], []) (some (nodeName, acc)) =
      .ok (.node nodeName (acc ++ (s :: rest.map Prod.snd).map segNode)) := by
  intro rest
  induction rest with
  | nil =>
    intro s F nodeName acc _ hs
    have hs2 : SegParses s (tailFuel F []) := hs
    have hstart : startFuel F s [] = s.name.length + (tailFuel F [] + 1) := by
      simp only [startFuel, tailFuel] <;> omega
    rw [show segsChars s [] = segChars s ++ [] by simp [segsChars]]
    rw [hstart, walk_segment s (tailFuel F []) [] _ hs2]
    rw [show walkQueryF (tailFuel F []) [] (s.name, s.args) (some (nodeName, acc)) =
      .ok (.node nodeName (acc ++ [Arg.node ⟨s.name⟩ s.args])) from rfl]
    simp [segNode]
  | cons p rest ih =>
    obtain ⟨j, s2⟩ := p
    intro s F nodeName acc hj hs
    obtain ⟨hp, hrest⟩ := hs
    have hX : tailFuel F ((j, s2) :: rest) = startFuel F s2 rest + 1 := by
      simp only [startFuel, tailFuel] <;> omega
    rw [hX] at hp
    have hstart : startFuel F s ((j, s2) :: rest) =
        s.name.length + ((startFuel F s2 rest + 1) + 1) := by
      simp only [startFuel, tailFuel] <;> omega
    rw [show segsChars s ((j, s2) :: rest) = segChars s ++ (j :: segsChars s2 rest) from rfl]
    rw [hstart, walk_segment s (startFuel F s2 rest + 1) (j :: segsChars s2 rest) _ hp]
    rcases hj with ⟨hnn, hjs⟩ | ⟨hnn, hjs⟩
    · subst hnn
      have hj1 : j = '&' ∨ j = ',' := hjs (j, s2) (by simp)
      have hrec := ih s2 F "and" (acc ++ [Arg.node ⟨s.name⟩ s.args])
        (Or.inl ⟨rfl, fun p hp2 => hjs p (by simp [hp2])⟩) hrest
      rcases hj1 with hj1 | hj1
      · subst hj1
        rw [show walkQueryF (startFuel F s2 rest + 1) ('&' :: segsChars s2 rest)
            (s.name, s.args) (some ("and", acc)) =
          walkQueryF (startFuel F s2 rest) (segsChars s2 rest) ([], [])
            (some ("and", acc ++ [Arg.node ⟨s.name⟩ s.args])) from rfl]
        rw [hrec]
        simp [segNode]
      · subst hj1
        rw [show walkQueryF (startFuel F s2 rest + 1) (',' :: segsChars s2 rest)
            (s.name, s.args) (some ("and", acc)) =
          walkQueryF (startFuel F s2 rest) (segsChars s2 rest) ([], [])
            (some ("and", acc ++ [Arg.node ⟨s.name⟩ s.args])) from rfl]
        rw [hrec]
        simp [segNode]
    · subst hnn
      have hj1 : j = '|' := hjs (j, s2) (by simp)
      subst hj1
      have hrec := ih s2 F "or" (acc ++ [Arg.node ⟨s.name⟩ s.args])
        (Or.inr ⟨rfl, fun p hp2 => hjs p (by simp [hp2])⟩) hrest
      rw [show walkQueryF (startFuel F s2 rest + 1) ('|' :: segsChars s2 rest)
          (s.name, s.args) (some ("or", acc)) =
        walkQueryF (startFuel F s2 rest) (segsChars s2 rest) ([], [])
          (some ("or", acc ++ [Arg.node ⟨s.name⟩ s.args])) from rfl]
      rw [hrec]
      simp [segNode]

/-- Monotonicity transport across a bind: if the scrutinee and the
continuation are stable under a fuel bump (away from fuel exhaustion), so
is the bind. -/
theorem except_bind_mono {α β : Type} {x x2 : Except RQLError α}
    {k k2 : α → Except RQLError β} {r : Except RQLError β}
    (hx : ∀ rv, x = rv → rv ≠ .error .fuelExhausted → x2 = rv)
    (hk : ∀ v rk, k v = rk → rk ≠ .error .fuelExhausted → k2 v = rk)
    (h : x >>= k = r) (hr : r ≠ .error .fuelExhausted) : x2 >>= k2 = r := by
  cases hcase : x with
  | error e =>
    rw [hcase] at h
    have h2 : (Except.error e : Except RQLError β) = r := h
    subst h2
    have hne : e ≠ RQLError.fuelExhausted := by
      intro hE; exact hr (by rw [hE])
    rw [hx _ hcase (by simp [hne])]
    rfl
  | ok v =>
    rw [hcase] at h
    have h2 : k v = r := h
    rw [hx _ hcase (by simp)]
    exact hk v r h2 hr

/-- Success and non-fuel errors of the walker family are stable when the
fuel is increased: the fuel is a pure modelling artifact. -/
theorem walkFamily_mono : ∀ (f f2 : Nat), f ≤ f2 →
    (∀ chars cur top r, walkQueryF f chars cur top = r → r ≠ .error .fuelExhausted →
      walkQueryF f2 chars cur top = r) ∧
    (∀ a r, parseArgF f a = r → r ≠ .error .fuelExhausted → parseArgF f2 a = r) ∧
    (∀ l r, parseArgsF f l = r → r ≠ .error .fuelExhausted → parseArgsF f2 l = r) := by
  intro f
  induction f with
  | zero =>
    intro f2 _
    refine ⟨?_, ?_, ?_⟩
    · intro chars cur top r h hr
      rw [show walkQueryF 0 chars cur top = .error .fuelExhausted from rfl] at h
      exact absurd h.symm hr
    · intro a r h hr
      rw [show parseArgF 0 a = .error .fuelExhausted from rfl] at h
      exact absurd h.symm hr
    · intro l r h hr
      rw [show parseArgsF 0 l = .error .fuelExhausted from rfl] at h
      exact absurd h.symm hr
  | succ f ih =>
    intro f2 hf2
    obtain ⟨f2p, rfl⟩ : ∃ k, f2 = k + 1 := ⟨f2 - 1, by omega⟩
    obtain ⟨ihw, ihp, ihps⟩ := ih f2p (by omega)
    refine ⟨?_, ?_, ?_⟩
    · intro chars cur top r h hr
      cases chars with
      | nil =>
        have heq : walkQueryF (f2p + 1) [] cur top = walkQueryF (f + 1) [] cur top := rfl
        rw [heq]; exact h
      | cons c t =>
        by_cases hA : (c == '&' || c == ',') = true
        · rcases top with _ | ⟨tn, targs⟩
          · simp only [walkQueryF, hA, if_true] at h ⊢
            exact ihw _ _ _ _ h hr
          · by_cases hB : (tn == "or") = true
            · simp only [walkQueryF, hA, hB, if_true] at h ⊢
              exact except_bind_mono (fun rv hv hnv => ihw _ _ _ _ hv hnv)
                (fun v rk hkv _ => hkv) h hr
            · rw [Bool.not_eq_true] at hB
              simp only [walkQueryF, hA, hB, if_true, Bool.false_eq_true, if_false] at h ⊢
              exact ihw _ _ _ _ h hr
        · rw [Bool.not_eq_true] at hA
          by_cases hC : (c == '|') = true
          · rcases top with _ | ⟨tn, targs⟩
            · simp only [walkQueryF, hA, hC, if_true, Bool.false_eq_true, if_false] at h ⊢
              exact ihw _ _ _ _ h hr
            · by_cases hD : (tn == "and") = true
              · simp only [walkQueryF, hA, hC, hD, if_true, Bool.false_eq_true, if_false] at h ⊢
                exact except_bind_mono (fun rv hv hnv => ihw _ _ _ _ hv hnv)
                  (fun v rk hkv _ => hkv) h hr
              · rw [Bool.not_eq_true] at hD
                simp only [walkQueryF, hA, hC, hD, if_true, Bool.false_eq_true, if_false] at h ⊢
                exact ihw _ _ _ _ h hr
          · rw [Bool.not_eq_true] at hC
            by_cases hE : (c == '(') = true
            · simp only [walkQueryF, hA, hC, hE, if_true, Bool.false_eq_true, if_false] at h ⊢
              refine except_bind_mono (fun rv hv _ => hv) ?_ h hr
              intro ins rk hins hrk
              refine except_bind_mono (fun rv hv _ => hv) ?_ hins hrk
              intro spl rk2 hspl hrk2
              refine except_bind_mono (fun rv hv hnv => ihps _ _ hv hnv) ?_ hspl hrk2
              intro na rk3 hna hrk3
              exact ihw _ _ _ _ hna hrk3
            · rw [Bool.not_eq_true] at hE
              simp only [walkQueryF, hA, hC, hE, Bool.false_eq_true, if_false] at h ⊢
              exact ihw _ _ _ _ h hr
    · intro a r h hr
      cases a with
      | str s =>
        by_cases hq : isRQLQuery s = true
        · simp only [parseArgF, hq, if_true] at h ⊢
          exact ihw _ _ _ _ h hr
        · rw [Bool.not_eq_true] at hq
          simp only [parseArgF, hq, Bool.false_eq_true, if_false] at h ⊢
          exact h
      | arr l =>
        simp only [parseArgF] at h ⊢
        cases hps : parseArgsF f l with
        | error e =>
          rw [hps] at h
          have h2 : (Except.error e : Except RQLError Arg) = r := h
          subst h2
          have hne : e ≠ RQLError.fuelExhausted := by
            intro hE; exact hr (by rw [hE])
          rw [ihps _ _ hps (by simp [hne])]
          rfl
        | ok v =>
          rw [hps] at h
          rw [ihps _ _ hps (by simp)]
          exact h
    · intro l r h hr
      cases l with
      | nil =>
        have heq : parseArgsF (f2p + 1) [] = parseArgsF (f + 1) [] := rfl
        rw [heq]; exact h
      | cons a rest =>
        simp only [parseArgsF] at h ⊢
        refine except_bind_mono (fun rv hv hnv => ihp _ _ hv hnv) ?_ h hr
        intro v rk hkv hrk
        refine except_bind_mono (fun rv hv hnv => ihps _ _ hv hnv) ?_ hkv hrk
        intro vs rk2 hk2 _
        exact hk2

/-- C2: a query text that joins clean operator-call segments using only
`&`/`,` at top level walks to a single flat `and` node whose arguments are
the individual operator nodes in source order (no nested aggregate among
them); a text joined only by `|` walks to a single flat `or` node.  The
`SegsOk` hypothesis records that each segment is an operator call whose
name contains no joiner and whose argument text parses (at the fuel the
walker hands it); `hF` says the wrapper fuel of `walkQuery` covers the
computed fuel. -/
theorem c2_walkQuery_flat_joiners (F : Nat) (s0 : SegT) (j1 : Char) (s1 : SegT)
    (rest : List (Char × SegT)) (nodeName : String)
    (hjoin : (nodeName = "and" ∧ (j1 = '&' ∨ j1 = ',') ∧ ∀ p ∈ rest, p.1 = '&' ∨ p.1 = ',') ∨
      (nodeName = "or" ∧ j1 = '|' ∧ ∀ p ∈ rest, p.1 = '|'))
    (hsegs : SegsOk F s0 ((j1, s1) :: rest))
    (hF : startFuel F s0 ((j1, s1) :: rest) ≤
      ((segsChars s0 ((j1, s1) :: rest)).length + 2) *
        ((segsChars s0 ((j1, s1) :: rest)).length + 2)) :
    walkQuery ⟨segsChars s0 ((j1, s1) :: rest)⟩ =
      .ok (.node nodeName ((s0 :: s1 :: rest.map Prod.snd).map segNode)) := by
  obtain ⟨hp0, hrest⟩ := hsegs
  have hX : tailFuel F ((j1, s1) :: rest) = startFuel F s1 rest + 1 := by
    simp only [startFuel, tailFuel] <;> omega
  rw [hX] at hp0
  have hcore : walkQueryF (startFuel F s0 ((j1, s1) :: rest))
      (segsChars s0 ((j1, s1) :: rest)) ([], []) none =
      .ok (.node nodeName ((s0 :: s1 :: rest.map Prod.snd).map segNode)) := by
    have hstart : startFuel F s0 ((j1, s1) :: rest) =
        s0.name.length + ((startFuel F s1 rest + 1) + 1) := by
      simp only [startFuel, tailFuel] <;> omega
    rw [show segsChars s0 ((j1, s1) :: rest) = segChars s0 ++ (j1 :: segsChars s1 rest)
      from rfl]
    rw [hstart, walk_segment s0 (startFuel F s1 rest + 1) (j1 :: segsChars s1 rest) none hp0]
    rcases hjoin with ⟨hnn, hj1, hjs⟩ | ⟨hnn, hj1, hjs⟩
    · subst hnn
      have hrec := walk_join rest s1 F "and" [Arg.node ⟨s0.name⟩ s0.args]
        (Or.inl ⟨rfl, hjs⟩) hrest
      rcases hj1 with hj1 | hj1
      · subst hj1
        rw [show walkQueryF (startFuel F s1 rest + 1) ('&' :: segsChars s1 rest)
            (s0.name, s0.args) none =
          walkQueryF (startFuel F s1 rest) (segsChars s1 rest) ([], [])
            (some ("and", [Arg.node ⟨s0.name⟩ s0.args])) from rfl]
        rw [hrec]
        simp [segNode]
      · subst hj1
        rw [show walkQueryF (startFuel F s1 rest + 1) (',' :: segsChars s1 rest)
            (s0.name, s0.args) none =
          walkQueryF (startFuel F s1 rest) (segsChars s1 rest) ([], [])
            (some ("and", [Arg.node ⟨s0.name⟩ s0.args])) from rfl]
        rw [hrec]
        simp [segNode]
    · subst hnn
      subst hj1
      have hrec := walk_join rest s1 F "or" [Arg.node ⟨s0.name⟩ s0.args]
        (Or.inr ⟨rfl, hjs⟩) hrest
      rw [show walkQueryF (startFuel F s1 rest + 1) ('|' :: segsChars s1 rest)
          (s0.name, s0.args) none =
        walkQueryF (startFuel F s1 rest) (segsChars s1 rest) ([], [])
          (some ("or", [Arg.node ⟨s0.name⟩ s0.args])) from rfl]
      rw [hrec]
      simp [segNode]
  have hmono := (walkFamily_mono (startFuel F s0 ((j1, s1) :: rest))
    (((segsChars s0 ((j1, s1) :: rest)).length + 2) *
      ((segsChars s0 ((j1, s1) :: rest)).length + 2)) hF).1
  exact hmono _ _ _ _ hcore (by simp)

/-- Witness for C2 at the concrete query `eq(foo,bar)&limit(10)`. -/
theorem c2_walkQuery_flat_joiners_witness :
    walkQuery "eq(foo,bar)&limit(10)" =
      .ok (.node "and"
        [.node "eq" [.val (.str "foo"), .val (.str "bar")],
         .node "limit" [.val (.num (finDec 10 0))]]) := by
  have h := c2_walkQuery_flat_joiners 30
    ⟨"eq".data, "foo,bar".data, [.val (.str "foo"), .val (.str "bar")]⟩ '&'
    ⟨"limit".data, "10".data, [.val (.num (finDec 10 0))]⟩ [] "and"
    (Or.inl ⟨rfl, Or.inl rfl, by simp⟩) (by decide) (by decide)
  exact h

/-- C1: parsing `eq(foo,bar)|eq(fizz,buzz)&limit(10)` yields an outer `or`
node whose second argument is an `and` node nesting the operands joined by
the later-seen `&` exactly one level deeper. -/
theorem c1_parse_mixed_joiners :
    parse "eq(foo,bar)|eq(fizz,buzz)&limit(10)" =
      .ok (.node "or"
        [.node "eq" [.val (.str "foo"), .val (.str "bar")],
         .node "and"
           [.node "eq" [.val (.str "fizz"), .val (.str "buzz")],
            .node "limit" [.val (.num (finDec 10 0))]]]) := by
  decide

/-- C3 counterexample: `normalizeSyntax "foo>==bar"` does not throw a parse
error; the regex matches `>==` as a length-3 operator, which the callback
strips to the bare name `=`, returning `=(foo,bar)`. -/
theorem c3_counterexample :
    normalizeSyntax "foo>==bar" = .ok "=(foo,bar)" := by
  decide

/-- C3 amended: the malformed chained comparison `foo>==bar` normalizes
(without error) to `=(foo,bar)`, while the well-formed `foo>=bar`
normalizes to `ge(foo,bar)` as the claim states. -/
theorem c3_amended_normalize :
    normalizeSyntax "foo>==bar" = .ok "=(foo,bar)" ∧
    normalizeSyntax "foo>=bar" = .ok "ge(foo,bar)" := by
  constructor <;> decide

/-- C4 counterexample: `queryToString` applied to the plain operator object
produced by `parse "eq(foo,bar)"` does not reproduce the text — the object
fails the `instanceof RQLQuery` test, falls into `encodeValue`, and is
serialized as its percent-encoded `typeof`-tagged `toString` form. -/
theorem c4_counterexample :
    (parse "eq(foo,bar)" >>= RQLQuery.queryToString) = .ok "object%3A%5Bobject%20Object%5D" ∧
    (Except.ok "object%3A%5Bobject%20Object%5D" : Except RQLError String) ≠ .ok "eq(foo,bar)" := by
  constructor <;> decide

/-- C4 amended: `parse "eq(foo,bar)"` yields the plain node
`eq(foo, bar)`, and serializing an `RQLQuery` *instance* carrying that
node's name and arguments reproduces the original text; the round trip
holds only after wrapping the parsed tree in the class. -/
theorem c4_amended_roundtrip :
    parse "eq(foo,bar)" = .ok (.node "eq" [.val (.str "foo"), .val (.str "bar")]) ∧
    RQLQuery.queryToString (.rql "eq" [.val (.str "foo"), .val (.str "bar")]) =
      .ok "eq(foo,bar)" := by
  constructor <;> decide

/-- C5 counterexample: for `s = "("` (which is free of quotes), the claimed
invariant `inside ("(" ++ s.replace(")", "\)") ++ ")") = ok s` fails — the
scan never finds a matching closing paren and throws instead. -/
theorem c5_counterexample :
    inside ⟨'(' :: replaceFirstL [')'] [bslash, ')'] "(".data ++ [')']⟩ =
      .error (.parseError "Could not find closing paren") ∧
    (Except.error (RQLError.parseError "Could not find closing paren") :
      Except RQLError String) ≠ .ok "(" := by
  constructor <;> decide

/-- Text free of backslashes, opening parens and quotes passes through the
scanner verbatim once every closing paren is escaped: the escape pair is
consumed into a bare `)` without touching the paren count. -/
theorem escapeCloseParens_frame : ∀ (s : List Char),
    (∀ c ∈ s, c ≠ bslash ∧ c ≠ '(' ∧ c ≠ squote ∧ c ≠ dquote) →
    ∀ (rest : List Char) (n : Nat),
    insideAux bslash (escapeCloseParens s ++ rest) false none n =
      (fun l => s ++ l) <$> insideAux bslash rest false none n := by
  intro s
  induction s with
  | nil =>
    intro _ rest n
    simp only [escapeCloseParens, List.flatMap_nil, List.nil_append]
    cases insideAux bslash rest false none n <;> simp [Except.map]
  | cons c s ih =>
    intro h rest n
    obtain ⟨hb, hp, hq1, hq2⟩ := h c (List.mem_cons_self c s)
    have ih2 := ih (fun x hx => h x (List.mem_cons_of_mem c hx)) rest n
    by_cases hcp : c = ')'
    · subst hcp
      rw [show escapeCloseParens (')' :: s) = bslash :: ')' :: escapeCloseParens s from rfl]
      rw [show insideAux bslash ((bslash :: ')' :: escapeCloseParens s) ++ rest) false none n =
        insideAux bslash ((')' :: escapeCloseParens s) ++ rest) true none n from rfl]
      rw [show insideAux bslash ((')' :: escapeCloseParens s) ++ rest) true none n =
        (fun l => ')' :: l) <$> insideAux bslash (escapeCloseParens s ++ rest) false none n
        from rfl]
      rw [ih2]
      cases insideAux bslash rest false none n <;> simp [Except.map]
    · have hesc : escapeCloseParens (c :: s) = c :: escapeCloseParens s := by
        simp [escapeCloseParens, hcp]
      rw [hesc]
      have hcb : (c == bslash) = false := beq_eq_false_iff_ne.mpr hb
      have hcq1 : (c == squote) = false := beq_eq_false_iff_ne.mpr hq1
      have hcq2 : (c == dquote) = false := beq_eq_false_iff_ne.mpr hq2
      have hcpo : (c == '(') = false := beq_eq_false_iff_ne.mpr hp
      have hcpc : (c == ')') = false := beq_eq_false_iff_ne.mpr hcp
      have hstep : insideAux bslash ((c :: escapeCloseParens s) ++ rest) false none n =
          (fun l => c :: l) <$> insideAux bslash (escapeCloseParens s ++ rest) false none n := by
        simp only [List.cons_append, insideAux, hcb, hcq1, hcq2, hcpo, hcpc,
          beq_self_eq_true, bne_self_eq_false, Bool.true_and, Bool.and_false, Bool.and_true,
          Bool.false_and, Bool.or_false, Bool.false_or, Bool.false_eq_true, Bool.true_eq_false,
          if_false, if_true, List.append_eq]
      rw [hstep, ih2]
      cases insideAux bslash rest false none n <;> simp [Except.map]

/-- C5 amended: for every string `s` free of backslashes, opening parens
and quotes, scanning the parenthesized form in which every closing paren of
`s` is backslash-escaped returns `s` exactly. -/
theorem c5_amended_inside_escape (s : List Char)
    (h : ∀ c ∈ s, c ≠ bslash ∧ c ≠ '(' ∧ c ≠ squote ∧ c ≠ dquote) :
    inside ⟨'(' :: escapeCloseParens s ++ [')']⟩ = .ok ⟨s⟩ := by
  unfold inside insideRun
  rw [show List.drop 1 (String.data ⟨'(' :: escapeCloseParens s ++ [')']⟩) =
    escapeCloseParens s ++ [')'] from rfl]
  rw [escapeCloseParens_frame s h [')'] 1]
  rw [show insideAux bslash [')'] false none 1 = .ok [] from rfl]
  simp [Except.map]

/-- Witness for the amended C5 at `s = "a)b"`. -/
theorem c5_amended_inside_escape_witness :
    (∀ c ∈ "a)b".data, c ≠ bslash ∧ c ≠ '(' ∧ c ≠ squote ∧ c ≠ dquote) ∧
      inside ⟨'(' :: escapeCloseParens "a)b".data ++ [')']⟩ = .ok ⟨"a)b".data⟩ :=
  ⟨by decide, c5_amended_inside_escape "a)b".data (by decide)⟩

/-- C6: the empty query is rejected with a parse error, and every query
whose first character is `?` is rejected with the corresponding parse
error; both guards precede normalization and scanning in the
definition. -/
theorem c6_parse_failfast :
    parse "" = .error (.parseError "Query empty or invalid: ") ∧
    ∀ q : String, q.data.head? = some '?' →
      parse q = .error (.parseError ("Query must not start with ?: " ++ q)) := by
  refine ⟨by decide, ?_⟩
  intro q hq
  obtain ⟨t, hqd⟩ : ∃ t, q.data = '?' :: t := by
    cases hd : q.data with
    | nil => rw [hd] at hq; simp at hq
    | cons c t =>
      rw [hd] at hq
      simp at hq
      exact ⟨t, by rw [hq]⟩
  have hne : q ≠ "" := by
    intro h
    rw [h] at hqd
    simp at hqd
  unfold parse
  rw [if_neg hne, hqd]
  rw [show jsCharAt ('?' :: t) 0 = some '?' by simp [jsCharAt]]
  simp

/-- Witness for C6 at the concrete query `?eq(foo,3)`. -/
theorem c6_parse_failfast_witness :
    ("?eq(foo,3)" : String).data.head? = some '?' ∧
    parse "?eq(foo,3)" =
      .error (.parseError "Query must not start with ?: ?eq(foo,3)") :=
  ⟨by decide, c6_parse_failfast.2 "?eq(foo,3)" (by decide)⟩

/-- C7 counterexample: `"a:b"` begins with a word character immediately
followed by a colon not preceded by a backslash, and `a` is not a
registered tag, yet `stringToValue` does not throw — the detection regex
`^\w+[^\\]:` needs two characters before the colon, so the whole string is
handed to the auto converter and comes back as a plain string. -/
theorem c7_counterexample :
    stringToValue "a:b" = .ok (.str "a:b") := by
  decide

/-- A word character is neither a colon nor a backslash. -/
theorem isWordChar_ne (a : Char) (h : isWordChar a = true) :
    (a == ':') = false ∧ (a == bslash) = false := by
  constructor <;> (rw [beq_eq_false_iff_ne]; rintro rfl; exact absurd h (by decide))

/-- The continuation of the tag-detection scan accepts a word prefix
followed by one non-backslash character and a colon. -/
theorem tagTestFrom_word (c : Char) (rest : List Char) (hcb : c ≠ bslash) :
    ∀ w : List Char, (∀ a ∈ w, isWordChar a = true) →
    tagTestFrom (w ++ c :: ':' :: rest) = true := by
  intro w
  induction w with
  | nil =>
    intro _
    have hc : (c != bslash) = true := bne_iff_ne.mpr hcb
    simp [tagTestFrom, hc]
  | cons a w ih =>
    intro h
    have hX : tagTestFrom (w ++ c :: ':' :: rest) = true :=
      ih (fun x hx => h x (List.mem_cons_of_mem a hx))
    have ha : isWordChar a = true := h a (List.mem_cons_self a w)
    cases hco : w ++ c :: ':' :: rest with
    | nil => cases w <;> simp at hco
    | cons b X2 =>
      rw [List.cons_append, hco]
      show ((a != bslash && b == ':') || (isWordChar a && tagTestFrom (b :: X2))) = true
      rw [← hco, hX, ha]
      simp

/-- The first colon of a word prefix, one non-colon character and a colon
sits right after that character. -/
theorem findIdx_colon (c : Char) (rest : List Char) (hcc : c ≠ ':') :
    ∀ w : List Char, (∀ a ∈ w, isWordChar a = true) →
    List.findIdx (· == ':') (w ++ c :: ':' :: rest) = w.length + 1 := by
  intro w
  induction w with
  | nil =>
    have hc : (c == ':') = false := beq_eq_false_iff_ne.mpr hcc
    simp [List.findIdx_cons, hc]
  | cons a w ih =>
    intro h
    have ha := (isWordChar_ne a (h a (List.mem_cons_self a w))).1
    have ihw := ih (fun x hx => h x (List.mem_cons_of_mem a hx))
    simp only [List.cons_append, List.findIdx_cons, ha, cond_false, ihw, List.length_cons]

/-- C7 amended: the tag-detection regex needs a word prefix, then one more
non-backslash character, then the colon; the split happens at the first
colon of the whole string, so the extra character becomes part of the
case-folded tag, which is then looked up as a JS property of the registry
object — that lookup also finds the inherited `constructor` and
`__proto__` names, which therefore do not throw the unknown-converter
error; a tag the lookup misses throws the parse error, and a found tag's
converter receives the remainder with one `\:` un-escaped. -/
theorem c7_amended_stringToValue (w : List Char) (c : Char) (rest : List Char)
    (hw : w ≠ []) (hwc : ∀ a ∈ w, isWordChar a = true)
    (hcb : c ≠ bslash) (hcc : c ≠ ':') :
    stringToValue ⟨w ++ c :: ':' :: rest⟩ =
      match converters.lookup (jsToLowerStr ⟨w ++ [c]⟩) with
      | none => .error (.parseError ("Unknown converter: \"" ++ jsToLowerStr ⟨w ++ [c]⟩))
      | some conv => conv ⟨replaceFirstL [bslash, ':'] [':'] rest⟩ := by
  obtain ⟨a, w0, rfl⟩ : ∃ a w0, w = a :: w0 := by
    cases w with
    | nil => exact absurd rfl hw
    | cons a w0 => exact ⟨a, w0, rfl⟩
  have htag : tagTest ((a :: w0) ++ c :: ':' :: rest) = true := by
    rw [List.cons_append]
    show (isWordChar a && tagTestFrom (w0 ++ c :: ':' :: rest)) = true
    rw [hwc a (List.mem_cons_self a w0),
      tagTestFrom_word c rest hcb w0 (fun x hx => hwc x (List.mem_cons_of_mem a hx))]
    rfl
  have hind : jsIndexOf ((a :: w0) ++ c :: ':' :: rest) ':' = (a :: w0).length + 1 :=
    findIdx_colon c rest hcc (a :: w0) hwc
  have htake : ((a :: w0) ++ c :: ':' :: rest).take ((a :: w0).length + 1) = (a :: w0) ++ [c] := by
    rw [List.take_append_eq_append_take, List.take_of_length_le (by simp)]
    simp
  have hdrop : ((a :: w0) ++ c :: ':' :: rest).drop ((a :: w0).length + 1 + 1) = rest := by
    rw [List.drop_append_eq_append_drop, List.drop_of_length_le (by simp)]
    simp
  unfold stringToValue
  rw [show String.data ⟨(a :: w0) ++ c :: ':' :: rest⟩ = (a :: w0) ++ c :: ':' :: rest from rfl,
    htag]
  simp only [if_true, hind, htake, hdrop]

/-- Witness for the amended C7 at the three registry outcomes: `"fooo:x"`
(unlisted tag) throws the unknown-converter parse error,
`"constructor:x"` reaches the inherited `Object` constructor and boxes the
value part, and `"__proto__:x"` reaches the non-callable
`Object.prototype` and throws the runtime `TypeError`. -/
theorem c7_amended_stringToValue_witness :
    (("foo".data ≠ [] ∧ (∀ a ∈ "foo".data, isWordChar a = true) ∧
        'o' ≠ bslash ∧ 'o' ≠ ':') ∧
      stringToValue ⟨"foo".data ++ 'o' :: ':' :: "x".data⟩ =
        .error (.parseError "Unknown converter: \"fooo")) ∧
    stringToValue ⟨"constructo".data ++ 'r' :: ':' :: "x".data⟩ = .ok (.strObject "x") ∧
    stringToValue ⟨"__proto_".data ++ '_' :: ':' :: "x".data⟩ =
      .error (.typeError "converter is not a function") :=
  ⟨⟨⟨by decide, by decide, by decide, by decide⟩,
    c7_amended_stringToValue "foo".data 'o' "x".data
      (by decide) (by decide) (by decide) (by decide)⟩,
    c7_amended_stringToValue "constructo".data 'r' "x".data
      (by decide) (by decide) (by decide) (by decide),
    c7_amended_stringToValue "__proto_".data '_' "x".data
      (by decide) (by decide) (by decide) (by decide)⟩

/-- C8 counterexample: for the raw argument `'foo%20bar'` the percent-
decoded form `'foo bar'` is wrapped in single quotes, but the auto
converter does not JSON-unwrap it: the closing-quote check indexes the
decoded string with the raw string's length, misses, and the quoted text
is returned verbatim. -/
theorem c8_counterexample :
    converters.auto "'foo%20bar'" = .ok (.str "'foo bar'") ∧
    (Except.ok (JSValue.str "'foo bar'") : Except RQLError JSValue) ≠ .ok (.str "foo bar") := by
  constructor <;> decide

/-- C8 amended: when percent-decoding leaves the raw argument unchanged
(so the raw-length indexing quirk cannot strike), a single-quote-wrapped
argument on which the literal table and the number conversion fail is
re-parsed as JSON with the inner content wrapped in double quotes. -/
theorem c8_amended_auto (inner : List Char)
    (hdec : decodeURIComponentL (squote :: inner ++ [squote]) =
      some (squote :: inner ++ [squote]))
    (htab : autoConvertedLookup ⟨squote :: inner ++ [squote]⟩ = none)
    (hnum : jsToNumber ⟨squote :: inner ++ [squote]⟩ = none) :
    converters.auto ⟨squote :: inner ++ [squote]⟩ =
      converters.json ⟨dquote :: inner ++ [dquote]⟩ := by
  have hbind : ∀ (x : String) (k : String → Except RQLError JSValue),
      (Except.ok x >>= k) = k x := fun x k => rfl
  have hsc : converters.stringCore ⟨squote :: inner ++ [squote]⟩ =
      .ok ⟨squote :: inner ++ [squote]⟩ := by
    unfold converters.stringCore
    rw [show String.data ⟨squote :: inner ++ [squote]⟩ = squote :: inner ++ [squote] from rfl,
      hdec]
  have hlen : (⟨squote :: inner ++ [squote]⟩ : String).length - 1 = inner.length + 1 := by
    show (squote :: inner ++ [squote]).length - 1 = inner.length + 1
    simp
  have hatN : jsCharAt (squote :: inner ++ [squote]) (inner.length + 1) = some squote := by
    show ((squote :: inner) ++ [squote])[inner.length + 1]? = some squote
    rw [List.getElem?_append_right (by simp)]
    simp
  have hsub : jsSubstring (squote :: inner ++ [squote]) 1 (inner.length + 1) = inner := by
    simp only [jsSubstring]
    rw [show (squote :: inner ++ [squote]).length = inner.length + 2 by simp]
    rw [show min 1 (inner.length + 2) = 1 by omega,
      show min (inner.length + 1) (inner.length + 2) = inner.length + 1 by omega,
      show min 1 (inner.length + 1) = 1 by omega,
      show max 1 (inner.length + 1) = inner.length + 1 by omega]
    rw [show (squote :: inner ++ [squote]).drop 1 = inner ++ [squote] from rfl]
    rw [show inner.length + 1 - 1 = inner.length by omega]
    exact List.take_left inner [squote]
  unfold converters.auto
  rw [htab]
  dsimp only
  rw [hnum]
  dsimp only
  rw [hsc, hbind]
  rw [show String.data ⟨squote :: inner ++ [squote]⟩ = squote :: inner ++ [squote] from rfl]
  rw [hlen, hatN, hsub]
  rw [show jsCharAt (squote :: inner ++ [squote]) 0 = some squote by simp [jsCharAt]]
  simp

/-- Witness for the amended C8 at the raw argument `'foo'`. -/
theorem c8_amended_auto_witness :
    (decodeURIComponentL (squote :: "foo".data ++ [squote]) =
        some (squote :: "foo".data ++ [squote]) ∧
      autoConvertedLookup ⟨squote :: "foo".data ++ [squote]⟩ = none ∧
      jsToNumber ⟨squote :: "foo".data ++ [squote]⟩ = none) ∧
    converters.auto ⟨squote :: "foo".data ++ [squote]⟩ =
      converters.json ⟨dquote :: "foo".data ++ [dquote]⟩ :=
  ⟨⟨by decide, by decide, by decide⟩,
    c8_amended_auto "foo".data (by decide) (by decide) (by decide)⟩

/-- C9 counterexample: `encodeString "(("` leaves a literal `(` in its
output, because the paren rewrite uses string-pattern `replace`, which
only replaces the first occurrence. -/
theorem c9_counterexample :
    RQLQuery.encodeString "((" = "%28(" ∧ ("%28(" : String).data.count '(' ≠ 0 := by
  constructor <;> decide

/-- The character list underlying a built string. -/
theorem data_mk (l : List Char) : String.data ⟨l⟩ = l := rfl

/-- A code point is below the Unicode bound. -/
theorem char_toNat_lt (c : Char) : c.toNat < 1114112 := by
  have h : c.val.toNat.isValidChar := c.valid
  rcases h with h | ⟨h1, h2⟩
  · exact Nat.lt_trans h (by decide)
  · exact h2

/-- UTF-8 encoding emits bytes. -/
theorem utf8Bytes_lt (c : Char) : ∀ b ∈ utf8Bytes c, b < 256 := by
  have hc : c.toNat < 1114112 := char_toNat_lt c
  intro b hb
  simp only [utf8Bytes] at hb
  split_ifs at hb <;>
    simp only [List.mem_cons, List.not_mem_nil, or_false] at hb <;> omega

/-- Hex digits are not parentheses. -/
theorem hexUpper_ne : ∀ m : Nat, m < 16 →
    (hexUpper m == '(') = false ∧ (hexUpper m == ')') = false := by decide

/-- A percent-escape expansion contains no parenthesis. -/
theorem count_hex_expansion_zero (c0 : Char) (hc0 : c0 = '(' ∨ c0 = ')') :
    ∀ bs : List Nat, (∀ b ∈ bs, b < 256) →
    List.count c0 (bs.flatMap (fun b => ['%', hexUpper (b / 16), hexUpper (b % 16)])) = 0 := by
  intro bs
  induction bs with
  | nil => intro _; rfl
  | cons b bs ih =>
    intro h
    rw [List.flatMap_cons, List.count_append, ih (fun x hx => h x (List.mem_cons_of_mem b hx))]
    have hb := h b (List.mem_cons_self b bs)
    have hd1 := hexUpper_ne (b / 16) (by omega)
    have hd2 := hexUpper_ne (b % 16) (by omega)
    rcases hc0 with rfl | rfl
    · simp [List.count_cons, hd1.1, hd2.1]
    · simp [List.count_cons, hd1.2, hd2.2]

/-- `encodeURIComponent` preserves the number of parentheses: parens are in
its unescaped set and percent escapes introduce none. -/
theorem encode_count_paren (c0 : Char) (hc0 : c0 = '(' ∨ c0 = ')') :
    ∀ l : List Char, List.count c0 (encodeURIComponentL l) = List.count c0 l := by
  intro l
  induction l with
  | nil => rfl
  | cons c l ih =>
    rw [show encodeURIComponentL (c :: l) = (if uriUnescaped c then [c]
      else (utf8Bytes c).flatMap (fun b => ['%', hexUpper (b / 16), hexUpper (b % 16)])) ++
        encodeURIComponentL l from rfl]
    rw [List.count_append, ih]
    by_cases hu : uriUnescaped c = true
    · rw [if_pos hu]
      simp [List.count_cons, Nat.add_comm]
    · rw [if_neg hu]
      have hcc0 : (c == c0) = false := by
        rw [beq_eq_false_iff_ne]
        rintro rfl
        rcases hc0 with rfl | rfl <;> exact hu (by decide)
      rw [count_hex_expansion_zero c0 hc0 (utf8Bytes c) (utf8Bytes_lt c)]
      simp [List.count_cons, hcc0]

/-- Replacing the first occurrence of a character that occurs at most once,
by a replacement free of it, removes it entirely. -/
theorem replaceFirst_count_self (c0 : Char) (rep : List Char)
    (hrep : List.count c0 rep = 0) :
    ∀ l : List Char, List.count c0 l ≤ 1 → List.count c0 (replaceFirstL [c0] rep l) = 0 := by
  intro l
  induction l with
  | nil => intro _; rfl
  | cons c t ih =>
    intro h
    rw [show replaceFirstL [c0] rep (c :: t) = if [c0].isPrefixOf (c :: t) then
      rep ++ (c :: t).drop [c0].length else c :: replaceFirstL [c0] rep t from rfl]
    by_cases hc : (c0 == c) = true
    · have hpre : [c0].isPrefixOf (c :: t) = true := by simp [List.isPrefixOf, hc]
      rw [if_pos hpre, show (c :: t).drop [c0].length = t from rfl, List.count_append, hrep]
      have hc2 : c = c0 := (beq_iff_eq.mp hc).symm
      simp [List.count_cons, hc2] at h ⊢
      omega
    · have hpre : [c0].isPrefixOf (c :: t) = false := by simp [List.isPrefixOf, hc]
      have hne : c ≠ c0 := by
        rintro rfl
        exact hc (beq_self_eq_true _)
      rw [if_neg (by simp [hpre])]
      simp [List.count_cons, hne] at h ⊢
      exact ih h

/-- Replacing the first occurrence of one character leaves the count of a
different character unchanged when the replacement is free of it. -/
theorem replaceFirst_count_other (c0 c1 : Char) (hne : c0 ≠ c1) (rep : List Char)
    (hrep : List.count c1 rep = 0) :
    ∀ l : List Char, List.count c1 (replaceFirstL [c0] rep l) = List.count c1 l := by
  intro l
  induction l with
  | nil => rfl
  | cons c t ih =>
    rw [show replaceFirstL [c0] rep (c :: t) = if [c0].isPrefixOf (c :: t) then
      rep ++ (c :: t).drop [c0].length else c :: replaceFirstL [c0] rep t from rfl]
    by_cases hc : (c0 == c) = true
    · have hpre : [c0].isPrefixOf (c :: t) = true := by simp [List.isPrefixOf, hc]
      have hc2 : c = c0 := (beq_iff_eq.mp hc).symm
      rw [if_pos hpre, show (c :: t).drop [c0].length = t from rfl, List.count_append, hrep]
      have hne1 : c ≠ c1 := by rw [hc2]; exact hne
      simp [List.count_cons, hne1]
    · have hpre : [c0].isPrefixOf (c :: t) = false := by simp [List.isPrefixOf, hc]
      rw [if_neg (by simp [hpre])]
      simp [List.count_cons, ih]

/-- C9 amended: the paren rewrite of `encodeString` uses string-pattern
`replace`, which rewrites only the first occurrence of each paren; the
output is paren-free exactly when the input holds at most one occurrence of
each paren. -/
theorem c9_amended_encodeString (s : String)
    (h1 : List.count '(' s.data ≤ 1) (h2 : List.count ')' s.data ≤ 1) :
    List.count '(' (RQLQuery.encodeString s).data = 0 ∧
    List.count ')' (RQLQuery.encodeString s).data = 0 := by
  have he1 : List.count '(' (encodeURIComponentL s.data) ≤ 1 := by
    rw [encode_count_paren '(' (Or.inl rfl) s.data]; exact h1
  have he2 : List.count ')' (encodeURIComponentL s.data) ≤ 1 := by
    rw [encode_count_paren ')' (Or.inr rfl) s.data]; exact h2
  simp only [RQLQuery.encodeString]
  by_cases hany : (encodeURIComponentL s.data).any (fun c => c == '(' || c == ')') = true
  · rw [if_pos hany]
    simp only [data_mk]
    have hin1 : List.count '(' (replaceFirstL ['('] "%28".data (encodeURIComponentL s.data)) = 0 :=
      replaceFirst_count_self '(' "%28".data (by decide) _ he1
    have hin2 : List.count ')' (replaceFirstL ['('] "%28".data (encodeURIComponentL s.data)) =
        List.count ')' (encodeURIComponentL s.data) :=
      replaceFirst_count_other '(' ')' (by decide) "%28".data (by decide) _
    constructor
    · rw [replaceFirst_count_other ')' '(' (by decide) "%29".data (by decide) _, hin1]
    · exact replaceFirst_count_self ')' "%29".data (by decide) _ (hin2 ▸ he2)
  · rw [if_neg hany]
    simp only [data_mk]
    rw [Bool.not_eq_true] at hany
    have hmem : ∀ x ∈ encodeURIComponentL s.data, ¬(x == '(' || x == ')') = true :=
      List.any_eq_false.mp hany
    constructor
    · rw [List.count_eq_zero]
      intro hm
      have := hmem '(' hm
      simp at this
    · rw [List.count_eq_zero]
      intro hm
      have := hmem ')' hm
      simp at this

/-- Witness for the amended C9 at `s = "(a)"`. -/
theorem c9_amended_encodeString_witness :
    (List.count '(' "(a)".data ≤ 1 ∧ List.count ')' "(a)".data ≤ 1) ∧
    (List.count '(' (RQLQuery.encodeString "(a)").data = 0 ∧
      List.count ')' (RQLQuery.encodeString "(a)").data = 0) :=
  ⟨⟨by decide, by decide⟩, c9_amended_encodeString "(a)" (by decide) (by decide)⟩

/-- C10: at top nesting level `splitArguments` strips matching quotes while
scanning and trims the resulting unquoted buffer when pushing it, so
whitespace that the quotes protected is removed:
`splitArguments "\" foo\"" = ["foo"]` and
`splitArguments "a,\" b \",c" = ["a","b","c"]`. -/
theorem c10_splitArguments_quotes :
    splitArguments "\" foo\"" = .ok [.str "foo"] ∧
    splitArguments "a,\" b \",c" = .ok [.str "a", .str "b", .str "c"] := by
  constructor <;> decide

end RQL






